import Mathlib

/-!
Verification development for the DataVisual CSV visualizer.

The TypeScript source is shallowly embedded here:
* `JSNum` models a JavaScript number (NaN, signed infinities, and finite
  values modelled exactly as rationals; IEEE-754 rounding of doubles is out
  of scope, all arithmetic reachable in the claims is exact on doubles).
* `JSVal` models the raw cell values a row can hold (strings from the CSV
  parser, plus null/undefined/numbers/booleans since the components accept
  arbitrary `any[]` data).
* `JSObj` models a JavaScript object as an insertion-ordered association
  list with property-update semantics; `objValuesOrder` models
  `Object.values` including the ECMAScript rule that array-index-like keys
  are enumerated first in ascending numeric order.
* `jsStrToNumber` and `jsParseFloat` model the two string-to-number
  conversions (`Number(s)` and `Number.parseFloat(s)`), restricted to
  decimal/hex/octal/binary literals and `Infinity` forms.
* Each chart component's derived data (`useMemo` blocks in
  `bar-chart-view` (src/unnamed/part_001), `pie-chart-view`
  (in data-table.tsx's file group) and `line-chart-view.tsx`) is a pure
  Lean function; the bar chart's use of `Math.random()` is made explicit
  by threading a random stream `ℕ → Fin 5`.
* The aggregations' `if (!acc[key])` guards read through the prototype
  chain of the plain-object accumulator (`accHasTruthy` /
  `objectProtoKeys`), and `parseIsoDate` models `Date.parse` on the full
  ECMA-262 Date Time String Format.
-/

namespace DataVisual

/-- Model of a JavaScript number: NaN, a signed infinity, or a finite value
(represented exactly as a rational). -/
inductive JSNum where
  | nan : JSNum
  | inf (pos : Bool) : JSNum
  | fin (q : ℚ) : JSNum
  deriving DecidableEq, Repr

namespace JSNum

/-- Test for NaN, modelling the JS `isNaN` applied to an already-converted
number. -/
def isNaNb : JSNum → Bool
  | nan => true
  | _ => false

/-- Negation of a JS number. -/
def neg : JSNum → JSNum
  | nan => nan
  | inf p => inf (!p)
  | fin q => fin (-q)

/-- Addition of JS numbers (`+` on numbers): NaN is absorbing and
opposite infinities give NaN. -/
def add : JSNum → JSNum → JSNum
  | nan, _ => nan
  | _, nan => nan
  | inf p, inf q => if p = q then inf p else nan
  | inf p, fin _ => inf p
  | fin _, inf p => inf p
  | fin a, fin b => fin (a + b)

/-- Subtraction of JS numbers, as used by the sort comparators. -/
def sub (a b : JSNum) : JSNum := a.add b.neg

/-- Strict `<` on JS numbers: any comparison involving NaN is false. -/
def ltb : JSNum → JSNum → Bool
  | nan, _ => false
  | _, nan => false
  | inf p, inf q => !p && q
  | inf p, fin _ => !p
  | fin _, inf q => q
  | fin a, fin b => decide (a < b)

/-- Strict `>` on JS numbers. -/
def gtb (a b : JSNum) : Bool := ltb b a

/-- JS `>=`: false when either side is NaN, otherwise not `<`. -/
def geb (a b : JSNum) : Bool := !a.isNaNb && !b.isNaNb && !(ltb a b)

/-- Division of JS numbers: `0/0` is NaN, division of a nonzero finite
number by zero gives a signed infinity. -/
def div : JSNum → JSNum → JSNum
  | nan, _ => nan
  | _, nan => nan
  | inf _, inf _ => nan
  | inf p, fin b => if 0 ≤ b then inf p else inf (!p)
  | fin _, inf _ => fin 0
  | fin a, fin b =>
    if b = 0 then (if a = 0 then nan else inf (decide (0 < a))) else fin (a / b)

end JSNum

/-! Character-level helpers for the string-to-number conversions. -/

/-- Digit test on characters. -/
def isDigitCh (c : Char) : Bool := '0' ≤ c && c ≤ '9'

/-- Value of a decimal digit character. -/
def digitVal (c : Char) : ℕ := c.toNat - 48

/-- Value of a digit string in a given radix (digits assumed valid). -/
def digitsVal (radix : ℕ) (ds : List Char) : ℕ :=
  ds.foldl (fun a c => a * radix + digitVal c) 0

/-- Hex digit test. -/
def isHexCh (c : Char) : Bool :=
  isDigitCh c || ('a' ≤ c && c ≤ 'f') || ('A' ≤ c && c ≤ 'F')

/-- Value of a hex digit character. -/
def hexVal (c : Char) : ℕ :=
  if isDigitCh c then digitVal c
  else if 'a' ≤ c && c ≤ 'f' then c.toNat - 87
  else c.toNat - 55

/-- Value of a hex digit string. -/
def hexDigitsVal (ds : List Char) : ℕ := ds.foldl (fun a c => a * 16 + hexVal c) 0

/-- Whitespace test for trimming, matching `Char.isWhitespace`. -/
def isWsCh (c : Char) : Bool := c = ' ' || c = '\t' || c = '\r' || c = '\n'

/-- Structural model of `String.trim` on the character list. -/
def jsTrimList (cs : List Char) : List Char :=
  ((cs.dropWhile isWsCh).reverse.dropWhile isWsCh).reverse

/-- Structural model of the whitespace trimming done by `String(x).trim()`. -/
def jsTrim (s : String) : String := String.mk (jsTrimList s.toList)

/-- ASCII lowercasing of one character (`toLowerCase` restricted to the
ASCII letters, which covers the keyword matching below). -/
def lowerCh (c : Char) : Char :=
  if 'A' ≤ c && c ≤ 'Z' then Char.ofNat (c.toNat + 32) else c

/-- Structural model of `name.toLowerCase()` as a character list. -/
def strToLowerList (s : String) : List Char := s.toList.map lowerCh

/-- Structural model of `String.toNat?`: all-digit nonempty strings. -/
def strToNatQ (s : String) : Option ℕ :=
  if s.toList ≠ [] ∧ s.toList.all isDigitCh then some (digitsVal 10 s.toList) else none

/-- Mantissa and fraction digits assembled into an exact rational, scaled
by a decimal exponent. -/
def mkDecimal (sgn : Bool) (ip fp : List Char) (e : ℤ) : ℚ :=
  let m : ℚ := (digitsVal 10 (ip ++ fp) : ℕ)
  let k : ℚ := (10 : ℚ) ^ fp.length
  let base : ℚ := if 0 ≤ e then m * (10 : ℚ) ^ e.toNat / k else m / (k * (10 : ℚ) ^ (-e).toNat)
  if sgn then base else -base

/-- Exponent part parser for the strict `Number` conversion: consumes
`e`/`E`, an optional sign and at least one digit, requiring the whole
remainder to be consumed. -/
def parseExpAll : List Char → Option ℤ
  | [] => some 0
  | c :: rest =>
    if c = 'e' ∨ c = 'E' then
      match rest with
      | '+' :: ds => if ds ≠ [] ∧ ds.all isDigitCh then some (digitsVal 10 ds) else none
      | '-' :: ds => if ds ≠ [] ∧ ds.all isDigitCh then some (-(digitsVal 10 ds : ℤ)) else none
      | ds => if ds ≠ [] ∧ ds.all isDigitCh then some (digitsVal 10 ds) else none
    else none

/-- Strict decimal-literal parser used by the `Number` conversion: the whole
character list must be `digits [. digits] [exponent]` with at least one
digit overall. -/
def parseStrictDec (sgn : Bool) (cs : List Char) : JSNum :=
  let ip := cs.takeWhile isDigitCh
  let r1 := cs.dropWhile isDigitCh
  let fp := match r1 with
    | '.' :: t => t.takeWhile isDigitCh
    | _ => []
  let r2 := match r1 with
    | '.' :: t => t.dropWhile isDigitCh
    | _ => r1
  if ip = [] ∧ fp = [] then .nan
  else
    match parseExpAll r2 with
    | some e => .fin (mkDecimal sgn ip fp e)
    | none => .nan

/-- Model of the JS `Number(string)` conversion. A trimmed empty string is
`0`; `Infinity` forms, decimal literals and `0x`/`0o`/`0b` integer literals
are accepted; everything else is NaN. (Unicode whitespace beyond what
`String.trim` handles, and legacy octal forms, are out of scope.) -/
def jsStrToNumber (s : String) : JSNum :=
  match jsTrimList s.toList with
  | [] => .fin 0
  | '0' :: 'x' :: ds => if ds ≠ [] ∧ ds.all isHexCh then .fin (hexDigitsVal ds : ℕ) else .nan
  | '0' :: 'X' :: ds => if ds ≠ [] ∧ ds.all isHexCh then .fin (hexDigitsVal ds : ℕ) else .nan
  | '0' :: 'o' :: ds =>
    if ds ≠ [] ∧ ds.all (fun c => '0' ≤ c && c ≤ '7') then .fin (digitsVal 8 ds : ℕ) else .nan
  | '0' :: 'O' :: ds =>
    if ds ≠ [] ∧ ds.all (fun c => '0' ≤ c && c ≤ '7') then .fin (digitsVal 8 ds : ℕ) else .nan
  | '0' :: 'b' :: ds =>
    if ds ≠ [] ∧ ds.all (fun c => c = '0' ∨ c = '1') then .fin (digitsVal 2 ds : ℕ) else .nan
  | '0' :: 'B' :: ds =>
    if ds ≠ [] ∧ ds.all (fun c => c = '0' ∨ c = '1') then .fin (digitsVal 2 ds : ℕ) else .nan
  | cs =>
    let sgn : Bool := match cs with
      | '-' :: _ => false
      | _ => true
    let body := match cs with
      | '+' :: t => t
      | '-' :: t => t
      | t => t
    if body = "Infinity".toList then .inf sgn else parseStrictDec sgn body

/-- Exponent prefix parser for `parseFloat`: consumes a valid exponent
prefix if present, ignoring any trailing garbage. -/
def parseExpLead : List Char → ℤ
  | c :: rest =>
    if c = 'e' ∨ c = 'E' then
      match rest with
      | '+' :: ds => if (ds.takeWhile isDigitCh) ≠ [] then (digitsVal 10 (ds.takeWhile isDigitCh) : ℤ) else 0
      | '-' :: ds => if (ds.takeWhile isDigitCh) ≠ [] then -(digitsVal 10 (ds.takeWhile isDigitCh) : ℤ) else 0
      | ds => if (ds.takeWhile isDigitCh) ≠ [] then (digitsVal 10 (ds.takeWhile isDigitCh) : ℤ) else 0
    else 0
  | [] => 0

/-- Model of `Number.parseFloat(string)`: parses the longest prefix that is
a signed decimal literal or `Infinity`, returning NaN when no prefix
parses. -/
def jsParseFloat (s : String) : JSNum :=
  let cs := jsTrimList s.toList
  let sgn : Bool := match cs with
    | '-' :: _ => false
    | _ => true
  let body := match cs with
    | '+' :: t => t
    | '-' :: t => t
    | t => t
  if "Infinity".toList.isPrefixOf body then .inf sgn
  else
    let ip := body.takeWhile isDigitCh
    let r1 := body.dropWhile isDigitCh
    let fp := match r1 with
      | '.' :: t => t.takeWhile isDigitCh
      | _ => []
    let r2 := match r1 with
      | '.' :: t => t.dropWhile isDigitCh
      | _ => r1
    if ip = [] ∧ fp = [] then .nan
    else .fin (mkDecimal sgn ip fp (parseExpLead r2))

/-- Model of a raw JavaScript value as it can appear in a row cell or a
derived chart item. -/
inductive JSVal where
  | vNull : JSVal
  | vUndefined : JSVal
  | vStr (s : String) : JSVal
  | vNum (n : JSNum) : JSVal
  | vBool (b : Bool) : JSVal
  deriving DecidableEq, Repr

/-- Fractional digits of a rational in `[0,1)`, by long division with fuel.
Terminating decimal expansions (the only ones reachable in the claims) are
rendered exactly; non-terminating ones are truncated at the fuel bound
(JS would round the double instead, out of scope). -/
def ratFracDigits : ℕ → ℚ → List Char
  | 0, _ => []
  | fuel + 1, q =>
    if q = 0 then []
    else
      let q10 := q * 10
      let d := (⌊q10⌋ : ℤ)
      Char.ofNat (48 + d.toNat) :: ratFracDigits fuel (q10 - d)

/-- Decimal rendering of a finite JS number (exact for integers and
terminating decimals). -/
def ratToString (q : ℚ) : String :=
  let sgn := if q < 0 then "-" else ""
  let a := |q|
  let ip := (⌊a⌋ : ℤ).toNat
  let fr := a - ⌊a⌋
  if fr = 0 then sgn ++ toString ip
  else sgn ++ toString ip ++ "." ++ String.mk (ratFracDigits 20 fr)

/-- Model of the JS `String(value)` conversion. -/
def jsToString : JSVal → String
  | .vNull => "null"
  | .vUndefined => "undefined"
  | .vStr s => s
  | .vBool b => if b then "true" else "false"
  | .vNum .nan => "NaN"
  | .vNum (.inf p) => if p then "Infinity" else "-Infinity"
  | .vNum (.fin q) => ratToString q

/-- Model of JS truthiness: `null`, `undefined`, `""`, `0`, `NaN` and
`false` are falsy, everything else truthy. -/
def truthy : JSVal → Bool
  | .vNull => false
  | .vUndefined => false
  | .vStr s => !(decide (s = ""))
  | .vBool b => b
  | .vNum .nan => false
  | .vNum (.inf _) => true
  | .vNum (.fin q) => decide (q ≠ 0)

/-- Model of the JS `a || b` short-circuit. -/
def jsOr (a b : JSVal) : JSVal := if truthy a then a else b

/-- Model of the JS `Number(value)` conversion on arbitrary values. -/
def jsToNumber : JSVal → JSNum
  | .vNull => .fin 0
  | .vUndefined => .nan
  | .vBool b => .fin (if b then 1 else 0)
  | .vNum n => n
  | .vStr s => jsStrToNumber s

/-- Model of the JS `+` operator as used in the accumulators: numeric
addition unless either operand is a string, in which case concatenation
(after stringification). Only the numeric case is reachable in the
components. -/
def jsPlus (a b : JSVal) : JSVal :=
  match a, b with
  | .vStr s, _ => .vStr (s ++ jsToString b)
  | _, .vStr t => .vStr (jsToString a ++ t)
  | _, _ => .vNum (JSNum.add (jsToNumber a) (jsToNumber b))

/-- Embedding of `isNumeric` from `src/lib/utils.ts`: false on `null`,
`undefined` and the empty string, otherwise true iff the trimmed
stringification is non-NaN under BOTH `Number` and `Number.parseFloat`. -/
def isNumeric (v : JSVal) : Bool :=
  if v = .vNull ∨ v = .vUndefined ∨ v = .vStr "" then false
  else
    let str := jsTrim (jsToString v)
    !(jsStrToNumber str).isNaNb && !(jsParseFloat str).isNaNb

/-! JavaScript objects: insertion-ordered association lists with
first-match lookup and in-place update. -/

/-- A JavaScript object (also used for dataset rows): association list in
property-creation order. -/
abbrev JSObj := List (String × JSVal)

/-- First-match association lookup, generic in the value type. -/
def assocFind {β : Type} (k : String) : List (String × β) → Option β
  | [] => none
  | e :: t => if e.1 = k then some e.2 else assocFind k t

/-- Model of JS property read `o[k]`: `undefined` when absent. -/
def objGet (o : JSObj) (k : String) : JSVal := (assocFind k o).getD .vUndefined

/-- Model of JS property write `o[k] = v`: replaces the value in place if
the key exists (keeping its position), otherwise appends the new key. -/
def objSet {β : Type} (o : List (String × β)) (k : String) (v : β) : List (String × β) :=
  if (assocFind k o).isSome then o.map (fun e => if e.1 = k then (k, v) else e)
  else o ++ [(k, v)]

/-- In-place update of the entry at a key of an accumulator object,
modelling mutation of `acc[k]`. -/
def assocUpdate {β : Type} (k : String) (f : β → β) (o : List (String × β)) :
    List (String × β) :=
  o.map (fun e => if e.1 = k then (k, f e.2) else e)

/-- Stable insertion into a list already processed by `jsSortBy`: the new
element goes after every element the comparator allows before it. -/
def jsInsert {α : Type} (le : α → α → Bool) (x : α) : List α → List α
  | [] => [x]
  | y :: l => if le y x then y :: jsInsert le x l else x :: y :: l

/-- Stable comparator-based sort modelling `Array.prototype.sort`: `le a b`
means the comparator does not require `b` before `a` (comparator value
`≤ 0` or NaN). For the consistent comparators reachable here this agrees
with the ECMAScript (stable) specification. -/
def jsSortBy {α : Type} (le : α → α → Bool) (l : List α) : List α :=
  l.foldl (fun acc x => jsInsert le x acc) []

/-- First-occurrence deduplication (the order produced by `new Set(...)`),
with an accumulator of already-seen elements. -/
def dedupSeen {α : Type} [DecidableEq α] (seen : List α) : List α → List α
  | [] => []
  | x :: xs => if x ∈ seen then dedupSeen seen xs else x :: dedupSeen (x :: seen) xs

/-- Model of `[...new Set(l)]`: keeps the first occurrence of each element. -/
def dedupFirst {α : Type} [DecidableEq α] (l : List α) : List α := dedupSeen [] l

/-- Number of distinct values (`new Set(...).size`). -/
def uniqueCount {α : Type} [DecidableEq α] (l : List α) : ℕ := (dedupFirst l).length

/-- An ECMAScript array-index property key: the canonical decimal form of
an integer below `2^32 - 1`. -/
def isArrayIndexKey (s : String) : Bool :=
  match strToNatQ s with
  | some n => decide (Nat.repr n = s ∧ n < 2 ^ 32 - 1)
  | none => false

/-- Key ordering used by `Object.values` for array-index keys: ascending
numeric value. -/
def keyNatLe (a b : String) : Bool := decide ((strToNatQ a).getD 0 ≤ (strToNatQ b).getD 0)

/-- Entry ordering used by `Object.values`: array-index keys ascending. -/
def idxKeyLe {β : Type} (a b : String × β) : Bool := keyNatLe a.1 b.1

/-- Model of `Object.values(o)`: array-index-like keys first in ascending
numeric order, then the remaining keys in insertion order. -/
def objValuesOrder {β : Type} (o : List (String × β)) : List β :=
  (jsSortBy idxKeyLe (o.filter (fun e => isArrayIndexKey e.1)) ++
    o.filter (fun e => !isArrayIndexKey e.1)).map (·.2)

/-- A fixed-width all-digit field, returning its value and the remaining
characters. -/
def parseDigitsN (n : ℕ) (cs : List Char) : Option (ℕ × List Char) :=
  let ds := cs.take n
  if ds.length = n ∧ ds.all isDigitCh then some (digitsVal 10 ds, cs.drop n) else none

/-- Day number of a proleptic Gregorian civil date, relative to the epoch
1970-01-01 (the standard era/year-of-era computation, exact for all
years). -/
def daysFromCivil (y : ℤ) (m d : ℕ) : ℤ :=
  let y2 : ℤ := if m ≤ 2 then y - 1 else y
  let era : ℤ := (if 0 ≤ y2 then y2 else y2 - 399) / 400
  let yoe : ℤ := y2 - era * 400
  let mp : ℕ := if 2 < m then m - 3 else m + 9
  let doy : ℤ := ((153 * mp + 2) / 5 : ℕ) + (d : ℤ) - 1
  let doe : ℤ := yoe * 365 + yoe / 4 - yoe / 100 + doy
  era * 146097 + doe - 719468

/-- Year field of the Date Time String Format: four digits, or a sign with
six digits (the expanded-year form; `-000000` is invalid). -/
def parseYearPart : List Char → Option (ℤ × List Char)
  | '+' :: cs => (parseDigitsN 6 cs).map (fun p => ((p.1 : ℤ), p.2))
  | '-' :: cs =>
    match parseDigitsN 6 cs with
    | some (v, rest) => if v = 0 then none else some ((-(v : ℤ) : ℤ), rest)
    | none => none
  | cs => (parseDigitsN 4 cs).map (fun p => ((p.1 : ℤ), p.2))

/-- Optional `-MM[-DD]` fields; a missing month or day defaults to 1. The
day is only bounds-checked against 31 (month-length validation of the
host's `MakeDay` is out of scope). -/
def parseMonthDay : List Char → Option (ℕ × ℕ × List Char)
  | '-' :: cs =>
    (match parseDigitsN 2 cs with
    | some (m, rest) =>
      if 1 ≤ m ∧ m ≤ 12 then
        match rest with
        | '-' :: cs2 =>
          match parseDigitsN 2 cs2 with
          | some (d, rest2) => if 1 ≤ d ∧ d ≤ 31 then some (m, d, rest2) else none
          | none => none
        | _ => some (m, 1, rest)
      else none
    | none => none)
  | cs => some (1, 1, cs)

/-- Trailing time-zone designator: nothing (an offset-less time, which the
host interprets as local time — modelled as UTC, a constant shift that is
out of scope), `Z`, or `+HH:mm` / `-HH:mm`; the result is the offset in
minutes. -/
def parseTimeZone : List Char → Option ℤ
  | [] => some 0
  | ['Z'] => some 0
  | c :: cs =>
    if c = '+' ∨ c = '-' then
      match parseDigitsN 2 cs with
      | some (h, ':' :: cs2) =>
        match parseDigitsN 2 cs2 with
        | some (mi, []) =>
          if h ≤ 23 ∧ mi ≤ 59 then
            some (if c = '-' then (-((h * 60 + mi : ℕ) : ℤ) : ℤ) else ((h * 60 + mi : ℕ) : ℤ))
          else none
        | _ => none
      | _ => none
    else none

/-- Optional `THH:mm[:ss[.sss]]` time with its time zone, as milliseconds
within the day and the offset in minutes. -/
def parseTimePart : List Char → Option (ℕ × ℤ)
  | [] => some (0, 0)
  | 'T' :: cs =>
    (match parseDigitsN 2 cs with
    | some (h, ':' :: cs2) =>
      match parseDigitsN 2 cs2 with
      | some (mi, rest) =>
        let secPart : Option (ℕ × ℕ × List Char) :=
          match rest with
          | ':' :: cs3 =>
            (match parseDigitsN 2 cs3 with
            | some (ss, '.' :: cs4) =>
              (match parseDigitsN 3 cs4 with
              | some (ms, rest3) => some (ss, ms, rest3)
              | none => none)
            | some (ss, rest2) => some (ss, 0, rest2)
            | none => none)
          | _ => some (0, 0, rest)
        match secPart with
        | some (ss, ms, rest2) =>
          if (h ≤ 23 ∨ (h = 24 ∧ mi = 0 ∧ ss = 0 ∧ ms = 0)) ∧ mi ≤ 59 ∧ ss ≤ 59 then
            match parseTimeZone rest2 with
            | some off => some (((h * 60 + mi) * 60 + ss) * 1000 + ms, off)
            | none => none
          else none
        | none => none
      | none => none
    | _ => none)
  | _ => none

/-- Model of `Date.parse` / `new Date(string).getTime()` on the ECMA-262
Date Time String Format: `YYYY[-MM[-DD]][THH:mm[:ss[.sss]]]` with an
optional `Z` or `+HH:mm`/`-HH:mm` offset and expanded-year forms; the
result is the UTC timestamp in milliseconds. Strings outside the format
(including the host-specific fallback formats ECMA leaves
implementation-defined) give `none` (NaN). -/
def parseIsoDate (s : String) : Option ℤ :=
  match parseYearPart s.toList with
  | some (y, rest) =>
    match parseMonthDay rest with
    | some (m, d, rest2) =>
      match parseTimePart rest2 with
      | some (msOfDay, off) =>
        some (daysFromCivil y m d * 86400000 + (msOfDay : ℤ) - off * 60000)
      | none => none
    | none => none
  | none => none

/-- Model of `new Date(value).getTime()` on a raw cell value. -/
def jsDateVal : JSVal → JSNum
  | .vStr s => match parseIsoDate s with
    | some t => .fin t
    | none => .nan
  | .vNum (.fin q) => .fin q
  | .vNum _ => .nan
  | .vNull => .fin 0
  | .vBool b => .fin (if b then 1 else 0)
  | .vUndefined => .nan

/-- Substring containment on character lists. -/
def chHasPref : List Char → List Char → Bool
  | [], _ => true
  | _ :: _, [] => false
  | c :: cs, d :: ds => c = d && chHasPref cs ds

/-- Containment of a pattern anywhere in a character list. -/
def chHasSub (pat : List Char) : List Char → Bool
  | [] => chHasPref pat []
  | l@(_ :: rest) => chHasPref pat l || chHasSub pat rest

/-- Model of `name.toLowerCase().includes(kw)` for a list of keywords. -/
def nameHasKeyword (kws : List String) (name : String) : Bool :=
  kws.any (fun k => chHasSub k.toList (strToLowerList name))

/-! Column classification, translated from the `useMemo` blocks of the three
chart components. -/

/-- Embedding of `numericColumns` (identical in the bar, pie and line
components): columns where at least 80% of values pass `isNumeric`. The
quotient is JS division, so an empty dataset gives `NaN >= 0.8`. -/
def numericColumns (data : List JSObj) (cols : List String) : List String :=
  cols.filter fun c =>
    let numericCount := (data.filter fun r => isNumeric (objGet r c)).length
    JSNum.geb (JSNum.div (.fin numericCount) (.fin data.length)) (.fin (4 / 5))

/-- Embedding of the bar chart's `categoricalColumns`: not numeric, or
fewer unique values than 20% of the rows. -/
def barCategoricalColumns (data : List JSObj) (cols : List String) : List String :=
  cols.filter fun c =>
    let uniq := uniqueCount (data.map fun r => objGet r c)
    !((numericColumns data cols).contains c) || decide ((uniq : ℚ) < data.length * (1 / 5))

/-- Embedding of the pie chart's `categoricalColumns`: fewer unique values
than `min(rows * 0.2, 10)`. -/
def pieCategoricalColumns (data : List JSObj) (cols : List String) : List String :=
  cols.filter fun c =>
    let uniq := uniqueCount (data.map fun r => objGet r c)
    decide ((uniq : ℚ) < min ((data.length : ℚ) * (1 / 5)) 10)

/-- Keywords naming date-like columns in the line chart. -/
def dateKeywords : List String := ["date", "time", "year", "month", "day"]

/-- Embedding of the line chart's `sequentialColumns`: date-like name, or
more than 3 unique values with at most half the rows distinct. -/
def lineSequentialColumns (data : List JSObj) (cols : List String) : List String :=
  cols.filter fun c =>
    nameHasKeyword dateKeywords c ||
      (let uniq := uniqueCount (data.map fun r => objGet r c)
       decide (3 < uniq) && decide ((uniq : ℚ) ≤ data.length * (1 / 2)))

/-- Keywords naming geographic columns in the pie and line charts. -/
def geoKeywords : List String := ["state", "region", "country", "province", "location", "territory"]

/-- Embedding of `stateColumns` (identical in the pie and line components):
geographic name, or between 2 and 100 unique values. -/
def stateColumnsOf (data : List JSObj) (cols : List String) : List String :=
  cols.filter fun c =>
    nameHasKeyword geoKeywords c ||
      (let uniq := uniqueCount (data.map fun r => objGet r c)
       decide (2 ≤ uniq) && decide (uniq ≤ 100))

/-! The bar chart's aggregation (`chartData` in the bar component). -/

/-- Group label shared by the bar and pie aggregations:
`String(row[keyColumn] || "Unknown")`. -/
def groupLabel (x : String) (r : JSObj) : String :=
  jsToString (jsOr (objGet r x) (.vStr "Unknown"))

/-- The property names a plain `{}` object inherits from
`Object.prototype`, all bound to truthy values (methods, and the
`__proto__` accessor). -/
def objectProtoKeys : List String :=
  ["constructor", "toString", "toLocaleString", "valueOf", "hasOwnProperty",
   "isPrototypeOf", "propertyIsEnumerable", "__proto__",
   "__defineGetter__", "__defineSetter__", "__lookupGetter__", "__lookupSetter__"]

/-- Truthiness of `acc[k]` on the plain-object accumulator: an own entry
(group objects are always truthy), or an inherited `Object.prototype`
member. Updates through an inherited member never create an own
property, so such groups are invisible to `Object.values`. (A
`__proto__`-labelled group's update writes NaN onto `Object.prototype`
under the value-column and `count` names; since NaN is falsy this cannot
re-enable a prototype key unless an axis column is itself named like one,
which the theorems exclude.) -/
def accHasTruthy {β : Type} (k : String) (acc : List (String × β)) : Bool :=
  (assocFind k acc).isSome || objectProtoKeys.contains k

/-- The group labels that create own accumulator entries: labels colliding
with an `Object.prototype` member never do. -/
def ownLabels (x : String) (data : List JSObj) : List String :=
  (data.map (groupLabel x)).filter (fun k => !(objectProtoKeys.contains k))

/-- The fresh group object `[xAxis]: xValue, [yAxis]: 0, count: 0` the bar
chart's `reduce` creates on first sight of a label (evaluated as an object
literal, later keys overwriting earlier ones on collision). -/
def barNewEntry (x y xv : String) : JSObj :=
  objSet (objSet (objSet ([] : JSObj) x (.vStr xv)) y (.vNum (.fin 0))) "count"
    (.vNum (.fin 0))

/-- The bar chart's group mutation `acc[xv][y] += Number(row[y]);
acc[xv].count += 1`, applied to the group object. -/
def barEntryUpdate (y : String) (n : JSNum) (e : JSObj) : JSObj :=
  let e1 := objSet e y (jsPlus (objGet e y) (.vNum n))
  objSet e1 "count" (jsPlus (objGet e1 "count") (.vNum (.fin 1)))

/-- One step of the bar chart's `reduce`: the guard `if (!acc[xValue])`
reads through the prototype chain, so a group object is created only when
the label is neither an own key nor an `Object.prototype` member; then,
when the y-value is numeric, the label's own group (if any) gets the
value added and its count bumped. -/
def barGroupStep (x y : String) (acc : List (String × JSObj)) (r : JSObj) :
    List (String × JSObj) :=
  let xv := groupLabel x r
  let acc1 :=
    if accHasTruthy xv acc then acc
    else acc ++ [(xv, barNewEntry x y xv)]
  if isNumeric (objGet r y) then
    assocUpdate xv (barEntryUpdate y (jsToNumber (objGet r y))) acc1
  else acc1

/-- The palette string `hsl(var(--chart-k))`. -/
def chartFill (k : ℕ) : String := "hsl(var(--chart-" ++ toString k ++ "))"

/-- The output projection of one bar group: the object literal
`[xAxis]: item[xAxis], [yAxis]: item[yAxis], fill: ...`, where the fill
slot consumes `Math.random()` (its `Math.floor(r * 5)` value is read from
the explicit stream at the item's index). -/
def barOutItem (rnd : ℕ → Fin 5) (x y : String) (p : ℕ × JSObj) : JSObj :=
  let o := objSet ([] : JSObj) x (objGet p.2 x)
  let o := objSet o y (objGet p.2 y)
  objSet o "fill" (.vStr (chartFill ((rnd p.1).1 + 1)))

/-- Embedding of the bar chart's `chartData`: group, project each group to
`[xAxis]`/`[yAxis]`/`fill`, and keep the first 20 items. -/
def barChartData (rnd : ℕ → Fin 5) (data : List JSObj) (x y : String) : List JSObj :=
  ((objValuesOrder (data.foldl (barGroupStep x y) [])).enum.map
    (barOutItem rnd x y)).take 20

/-! The pie chart's aggregation (`chartData` in the pie component). -/

/-- One slice of the pie accumulator: `name`/`value` record. -/
structure PieEntry where
  name : String
  value : JSNum
  deriving DecidableEq, Repr

/-- The label column actually used by the pie chart:
`groupByState && stateColumn ? stateColumn : labelColumn`. -/
def pieActualLabel (labelCol stateCol : String) (groupByState : Bool) : String :=
  if groupByState && stateCol ≠ "" then stateCol else labelCol

/-- One step of the pie chart's `reduce`: the guard `if (!acc[label])`
reads through the prototype chain (as in the bar chart), so a zero-valued
slice is created only for labels that are not `Object.prototype` members;
then the value column is added when numeric. -/
def pieGroupStep (lbl val : String) (acc : List (String × PieEntry)) (r : JSObj) :
    List (String × PieEntry) :=
  let l := groupLabel lbl r
  let acc1 := if accHasTruthy l acc then acc else acc ++ [(l, ⟨l, .fin 0⟩)]
  if isNumeric (objGet r val) then
    assocUpdate l (fun e => ⟨e.name, e.value.add (jsToNumber (objGet r val))⟩) acc1
  else acc1

/-- The pie sort comparator `(a, b) => b.value - a.value`, expressed as the
stable-sort "may stay before" relation. -/
def pieCmpLe (a b : PieEntry) : Bool :=
  !(JSNum.gtb (JSNum.sub b.value a.value) (.fin 0))

/-- Embedding of the pie chart's `chartData`: optional single-state filter,
group by the actual label column, drop non-positive sums, sort descending
by value and keep the first 12 slices. -/
def pieChartData (data : List JSObj) (labelCol valCol stateCol selectedState : String)
    (groupByState : Bool) : List PieEntry :=
  let filtered :=
    if stateCol ≠ "" && !groupByState && selectedState ≠ "" then
      data.filter (fun r => jsToString (objGet r stateCol) = selectedState)
    else data
  let actual := pieActualLabel labelCol stateCol groupByState
  ((jsSortBy pieCmpLe ((objValuesOrder (filtered.foldl (pieGroupStep actual valCol) [])).filter
      (fun e => JSNum.gtb e.value (.fin 0)))).take 12)

/-- The pie chart's fixed `COLORS` palette. -/
def pieColors : List String :=
  ["hsl(var(--chart-1))", "hsl(var(--chart-2))", "hsl(var(--chart-3))",
   "hsl(var(--chart-4))", "hsl(var(--chart-5))", "hsl(var(--chart-6, var(--chart-1)))",
   "hsl(var(--chart-7, var(--chart-2)))", "hsl(var(--chart-8, var(--chart-3)))"]

/-- Embedding of the pie chart's `chartConfig`: one entry per slice, whose
color is `COLORS[index % COLORS.length]`. -/
def pieChartConfig (data : List JSObj) (labelCol valCol stateCol selectedState : String)
    (groupByState : Bool) : List (String × String) :=
  (pieChartData data labelCol valCol stateCol selectedState groupByState).enum.map
    (fun p => (p.2.name, pieColors.getD (p.1 % pieColors.length) ""))

/-! The line chart (`line-chart-view.tsx`). -/

/-- Embedding of `stateOptions` (identical in the pie and line components):
the sorted set of stringified state values with `"Unknown"` substituted
for falsy raw values. -/
def stateOptionsOf (data : List JSObj) (stateCol : String) : List String :=
  if stateCol = "" then []
  else
    jsSortBy (fun a b => !(decide (b < a)))
      (dedupFirst (data.map (fun r => jsToString (jsOr (objGet r stateCol) (.vStr "Unknown")))))

/-- The line chart's date detection: some row has a truthy x-value whose
stringification parses as a date (`val && !isNaN(Date.parse(String(val)))`).
`parseIsoDate` covers exactly the parses ECMA-262 mandates; an engine may
additionally accept host-specific formats (implementation-defined), which
can only move a dataset from the later branches into the date branch. -/
def lineIsDate (data : List JSObj) (x : String) : Bool :=
  data.any fun r => truthy (objGet r x) && (parseIsoDate (jsToString (objGet r x))).isSome

/-- The line chart's numeric detection: some row's x-value passes
`isNumeric`. -/
def lineIsNum (data : List JSObj) (x : String) : Bool :=
  data.any fun r => isNumeric (objGet r x)

/-- The date sort comparator `new Date(a[x]).getTime() - new
Date(b[x]).getTime()`, as the stable-sort "may stay before" relation. -/
def dateCmpLe (x : String) (a b : JSObj) : Bool :=
  !(JSNum.gtb (JSNum.sub (jsDateVal (objGet a x)) (jsDateVal (objGet b x))) (.fin 0))

/-- The numeric sort comparator `Number(a[x]) - Number(b[x])`. -/
def numCmpLe (x : String) (a b : JSObj) : Bool :=
  !(JSNum.gtb (JSNum.sub (jsToNumber (objGet a x)) (jsToNumber (objGet b x))) (.fin 0))

/-- Embedding of the line chart's `sortedData`: sort by date when any
x-value is date-like, else numerically when any x-value is numeric, else
keep the original order. -/
def lineSortedData (data : List JSObj) (x : String) : List JSObj :=
  if lineIsDate data x then jsSortBy (dateCmpLe x) data
  else if lineIsNum data x then jsSortBy (numCmpLe x) data
  else data

/-- The line chart's row filter `row[x] !== undefined && row[x] !== null`. -/
def lineKeepRow (x : String) (r : JSObj) : Bool :=
  !(objGet r x = JSVal.vUndefined) && !(objGet r x = JSVal.vNull)

/-- The line chart's item builder: raw x-value, y coerced to a number
(0 when non-numeric), and the raw grouping value attached when a state
column is active. -/
def lineMkItem (x y g : String) (r : JSObj) : JSObj :=
  let o := objSet ([] : JSObj) x (objGet r x)
  let o := objSet o y (.vNum (if isNumeric (objGet r y) then jsToNumber (objGet r y) else .fin 0))
  if g ≠ "" then objSet o g (objGet r g) else o

/-- The sorted rows after the optional single-state filter. -/
def lineFilteredData (data : List JSObj) (x g sel : String) (showAll : Bool) : List JSObj :=
  let sorted := lineSortedData data x
  if g ≠ "" && !showAll && sel ≠ "" then
    sorted.filter (fun r => jsToString (objGet r g) = sel)
  else sorted

/-- Embedding of the line chart's `chartData`: filter out missing x-values,
build items, and keep the first 100. -/
def lineChartData (data : List JSObj) (x y g sel : String) (showAll : Bool) : List JSObj :=
  ((((lineFilteredData data x g sel showAll).filter (lineKeepRow x)).map
    (lineMkItem x y g)).take 100)

/-- The underlying rows of `lineChartData`, before the item projection
(used to state ordering properties; `lineChartData` is its image under
`lineMkItem` since `map` commutes with the final `slice`). -/
def lineSeriesRows (data : List JSObj) (x g sel : String) (showAll : Bool) : List JSObj :=
  (((lineFilteredData data x g sel showAll).filter (lineKeepRow x))).take 100

/-- Embedding of the per-state `<Line>` data in show-all mode:
`chartData.filter(item => String(item[stateColumn]) === state)`. -/
def lineSubSeries (data : List JSObj) (x y g sel : String) (showAll : Bool)
    (st : String) : List JSObj :=
  (lineChartData data x y g sel showAll).filter
    (fun item => jsToString (objGet item g) = st)

/-! Top-level render outcomes of the three components. -/

/-- What a chart component renders: the insufficient-columns card, the
no-valid-data card, or a chart over its series. -/
inductive RenderOutcome (α : Type) where
  | insufficientColumns : RenderOutcome α
  | noData : RenderOutcome α
  | chart (series : α) : RenderOutcome α
  deriving DecidableEq

/-- JS indexing `l[i]` on an array of strings: `undefined` out of range. -/
def listGetJS (l : List String) (i : ℕ) : JSVal :=
  match l.get? i with
  | some s => .vStr s
  | none => .vUndefined

/-- Default axis selection `primary[0] || columns[0]`, as the property key
it produces (an undefined axis reads property `"undefined"`). -/
def defaultAxis (primary cols : List String) : String :=
  jsToString (jsOr (listGetJS primary 0) (listGetJS cols 0))

/-- Default y-axis selection `numericColumns[0] || columns[1] || columns[0]`. -/
def defaultYAxis (nums cols : List String) : String :=
  jsToString (jsOr (jsOr (listGetJS nums 0) (listGetJS cols 1)) (listGetJS cols 0))

/-- Default state column selection `stateColumns[0] || ""`. -/
def defaultStateCol (sts : List String) : String :=
  jsToString (jsOr (listGetJS sts 0) (.vStr ""))

/-- Embedding of the bar component's render outcome on first render (default
selections): the insufficient-columns card when there are fewer than two
columns, else a chart over `chartData` when nonempty, else the no-data
card. -/
def barView (rnd : ℕ → Fin 5) (data : List JSObj) (cols : List String) :
    RenderOutcome (List JSObj) :=
  if cols.length < 2 then .insufficientColumns
  else
    let x := defaultAxis (barCategoricalColumns data cols) cols
    let y := defaultYAxis (numericColumns data cols) cols
    let cd := barChartData rnd data x y
    if cd.length > 0 then .chart cd else .noData

/-- Embedding of the pie component's render outcome on first render
(`selectedState = ""`, `groupByState = false`). -/
def pieView (data : List JSObj) (cols : List String) : RenderOutcome (List PieEntry) :=
  if cols.length < 2 then .insufficientColumns
  else
    let lbl := defaultAxis (pieCategoricalColumns data cols) cols
    let v := defaultYAxis (numericColumns data cols) cols
    let st := defaultStateCol (stateColumnsOf data cols)
    let cd := pieChartData data lbl v st "" false
    if cd.length > 0 then .chart cd else .noData

/-- Embedding of the line component's render outcome on first render
(`selectedState = ""`, `showAllStates = true`). -/
def lineView (data : List JSObj) (cols : List String) : RenderOutcome (List JSObj) :=
  if cols.length < 2 then .insufficientColumns
  else
    let x := defaultAxis (lineSequentialColumns data cols) cols
    let y := defaultYAxis (numericColumns data cols) cols
    let st := defaultStateCol (stateColumnsOf data cols)
    let cd := lineChartData data x y st "" true
    if cd.length > 0 then .chart cd else .noData

/-! Reference characterizations used to state the theorems. -/

/-- The per-group conditional sum the aggregators are claimed to compute:
over the rows whose label is `k`, add `Number(row[y])` when it passes
`isNumeric`. -/
def sumGroup (x y k : String) (data : List JSObj) : JSNum :=
  data.foldl (fun s r =>
    if groupLabel x r = k ∧ isNumeric (objGet r y) = true then
      s.add (jsToNumber (objGet r y))
    else s) (.fin 0)

/-- The order `Object.values` enumerates a set of keys created in the given
order: array-index-like keys ascending, then the rest in creation order. -/
def jsObjKeyOrder (keys : List String) : List String :=
  jsSortBy keyNatLe (keys.filter isArrayIndexKey) ++
    keys.filter (fun k => !isArrayIndexKey k)

/-- A string-valued extractor for the x field of a group object (used to
state which label an output item carries). -/
def xFieldStr (x : String) (e : JSObj) : String :=
  match objGet e x with
  | .vStr s => s
  | _ => ""

/-! Concrete fixtures used in the claim theorems. -/

/-- A constant `Math.floor(Math.random() * 5)` stream. -/
def rndZero : ℕ → Fin 5 := fun _ => 0

/-- A different constant random stream, to compare two renders. -/
def rndOne : ℕ → Fin 5 := fun _ => 1

/-- The spec's end-to-end aggregation scenario dataset. -/
def exAggData : List JSObj :=
  [[("category", .vStr "A"), ("amount", .vStr "10")],
   [("category", .vStr "B"), ("amount", .vStr "20")],
   [("category", .vStr "A"), ("amount", .vStr "5")]]

/-- Two groups with equal sums, for the pie sort. -/
def pieTieData : List JSObj :=
  [[("l", .vStr "A"), ("v", .vStr "10")], [("l", .vStr "B"), ("v", .vStr "10")]]

/-- A one-row dataset for comparing two bar renders. -/
def c8Data : List JSObj := [[("a", .vStr "A"), ("b", .vStr "1")]]

/-- Group keys "2" then "1": array-index-like strings. -/
def barOrderData : List JSObj :=
  [[("k", .vStr "2"), ("v", .vStr "1")], [("k", .vStr "1"), ("v", .vStr "1")]]

/-- 21 groups: a non-index key "Z" first, then the index keys "0".."19". -/
def barTruncData : List JSObj :=
  [("k", JSVal.vStr "Z"), ("v", JSVal.vStr "1")] ::
    (List.range 20).map (fun i => [("k", JSVal.vStr (Nat.repr i)), ("v", JSVal.vStr "1")])

/-- A single group with a negative sum. -/
def negSumData : List JSObj := [[("k", .vStr "A"), ("v", .vStr "-5")]]

/-- The spec's date-sorting scenario dataset. -/
def lineDateData : List JSObj :=
  [[("date", .vStr "2023-01-02"), ("v", .vStr "1")],
   [("date", .vStr "2023-01-01"), ("v", .vStr "2")]]

/-- A falsy grouping value next to a row whose literal value is the string
"Unknown". -/
def c10CexData : List JSObj :=
  [[("g", .vStr ""), ("x", .vStr "1"), ("y", .vStr "2")],
   [("g", .vStr "Unknown"), ("x", .vStr "1"), ("y", .vStr "2")]]

/-- A falsy grouping value next to an ordinary truthy one. -/
def c10WitData : List JSObj :=
  [[("g", .vStr ""), ("x", .vStr "1"), ("y", .vStr "2")],
   [("g", .vStr "CA"), ("x", .vStr "2"), ("y", .vStr "3")]]

/-- A one-row dataset whose group key is the given raw value. -/
def c9Row (v : JSVal) : List JSObj := [[("k", v), ("v", .vStr "5")]]

/-- A group labelled like an `Object.prototype` member. -/
def protoDropData : List JSObj := [[("k", .vStr "toString"), ("v", .vStr "1")]]

/-- Rows whose x column holds ISO date-time strings. -/
def isoTimeData : List JSObj :=
  [[("date", .vStr "2023-01-02T10:00"), ("v", .vStr "1")],
   [("date", .vStr "2023-01-02T09:30"), ("v", .vStr "2")]]

/-! Lemmas about association lists and object updates. -/

theorem assocFind_isSome_iff {β : Type} (k : String) (o : List (String × β)) :
    (assocFind k o).isSome = true ↔ k ∈ o.map Prod.fst := by
  induction o with
  | nil => simp [assocFind]
  | cons e t ih =>
    by_cases h : e.1 = k
    · simp [assocFind, h]
    · simp [assocFind, h, ih, Ne.symm h]

theorem assocFind_replace_self {β : Type} (k : String) (v : β) (o : List (String × β))
    (h : (assocFind k o).isSome = true) :
    assocFind k (o.map (fun e => if e.1 = k then (k, v) else e)) = some v := by
  induction o with
  | nil => simp [assocFind] at h
  | cons e t ih =>
    by_cases he : e.1 = k
    · simp [assocFind, he]
    · simp [assocFind, he] at h ⊢
      exact ih h

theorem assocFind_replace_ne {β : Type} (k k' : String) (v : β) (o : List (String × β))
    (h : k' ≠ k) :
    assocFind k' (o.map (fun e => if e.1 = k then (k, v) else e)) = assocFind k' o := by
  induction o with
  | nil => simp
  | cons e t ih =>
    by_cases he : e.1 = k
    · simp [assocFind, he, Ne.symm h, h, ih]
    · by_cases he' : e.1 = k'
      · simp [assocFind, he, he', h]
      · simp [assocFind, he, he', h, ih]

theorem assocFind_append {β : Type} (k : String) (o o' : List (String × β)) :
    assocFind k (o ++ o') =
      match assocFind k o with
      | some v => some v
      | none => assocFind k o' := by
  induction o with
  | nil => simp [assocFind]
  | cons e t ih =>
    by_cases he : e.1 = k
    · simp [assocFind, he]
    · simp [assocFind, he, ih]

theorem assocFind_objSet_self {β : Type} (k : String) (v : β) (o : List (String × β)) :
    assocFind k (objSet o k v) = some v := by
  unfold objSet
  by_cases h : (assocFind k o).isSome = true
  · simp [h, assocFind_replace_self k v o h]
  · simp [h, assocFind_append]
    have hn : assocFind k o = none := by
      cases hh : assocFind k o with
      | none => rfl
      | some w => simp [hh] at h
    simp [hn, assocFind]

theorem assocFind_objSet_ne {β : Type} (k k' : String) (v : β) (o : List (String × β))
    (h : k' ≠ k) : assocFind k' (objSet o k v) = assocFind k' o := by
  unfold objSet
  by_cases hs : (assocFind k o).isSome = true
  · simp [hs, assocFind_replace_ne k k' v o h]
  · simp [hs, assocFind_append]
    cases hh : assocFind k' o with
    | none => simp [assocFind, Ne.symm h]
    | some w => simp

theorem objGet_objSet_self (k : String) (v : JSVal) (o : JSObj) :
    objGet (objSet o k v) k = v := by
  simp [objGet, assocFind_objSet_self]

theorem objGet_objSet_ne (k k' : String) (v : JSVal) (o : JSObj) (h : k' ≠ k) :
    objGet (objSet o k v) k' = objGet o k' := by
  simp [objGet, assocFind_objSet_ne k k' v o h]

theorem assocUpdate_map_fst {β : Type} (k : String) (f : β → β) (o : List (String × β)) :
    (assocUpdate k f o).map Prod.fst = o.map Prod.fst := by
  induction o with
  | nil => rfl
  | cons e t ih =>
    by_cases he : e.1 = k
    · simp [assocUpdate, he] at ih ⊢
      exact ih
    · simp [assocUpdate, he] at ih ⊢
      exact ih

theorem mem_assocUpdate {β : Type} (k : String) (f : β → β) (o : List (String × β))
    (p : String × β) (hp : p ∈ assocUpdate k f o) :
    ∃ q ∈ o, p = if q.1 = k then (k, f q.2) else q := by
  unfold assocUpdate at hp
  obtain ⟨q, hq, hpq⟩ := List.mem_map.mp hp
  exact ⟨q, hq, hpq.symm⟩

/-! Lemmas about the stable sort. -/

theorem jsInsert_perm {α : Type} (le : α → α → Bool) (x : α) (l : List α) :
    (jsInsert le x l).Perm (x :: l) := by
  induction l with
  | nil => simp [jsInsert]
  | cons y t ih =>
    by_cases h : le y x = true
    · simpa [jsInsert, h] using ((ih.cons y).trans (List.Perm.swap x y t))
    · simp [jsInsert, h]

theorem jsSortBy_perm {α : Type} (le : α → α → Bool) (l : List α) :
    (jsSortBy le l).Perm l := by
  have aux : ∀ (l acc : List α),
      (l.foldl (fun acc x => jsInsert le x acc) acc).Perm (acc ++ l) := by
    intro l
    induction l with
    | nil => simp
    | cons x t ih =>
      intro acc
      have h1 := ih (jsInsert le x acc)
      have h2 := (jsInsert_perm le x acc).append_right t
      have h3 : ((x :: acc) ++ t).Perm (acc ++ x :: t) := by
        simpa using List.perm_middle.symm
      exact (h1.trans h2).trans h3
  simpa using aux l []

theorem mem_jsSortBy {α : Type} (le : α → α → Bool) (l : List α) (a : α) :
    a ∈ jsSortBy le l ↔ a ∈ l := (jsSortBy_perm le l).mem_iff

/-! Order lemmas on JS numbers, relating the subtraction-based comparators
to the strict comparison. -/

theorem JSNum.gtb_sub_zero (a b : JSNum) :
    JSNum.gtb (JSNum.sub a b) (.fin 0) = JSNum.ltb b a := by
  cases a with
  | nan => cases b <;> simp [JSNum.sub, JSNum.add, JSNum.neg, JSNum.gtb, JSNum.ltb]
  | inf p =>
    cases b with
    | nan => simp [JSNum.sub, JSNum.add, JSNum.neg, JSNum.gtb, JSNum.ltb]
    | inf q => cases p <;> cases q <;>
        simp [JSNum.sub, JSNum.add, JSNum.neg, JSNum.gtb, JSNum.ltb]
    | fin q => cases p <;> simp [JSNum.sub, JSNum.add, JSNum.neg, JSNum.gtb, JSNum.ltb]
  | fin a =>
    cases b with
    | nan => simp [JSNum.sub, JSNum.add, JSNum.neg, JSNum.gtb, JSNum.ltb]
    | inf q => cases q <;> simp [JSNum.sub, JSNum.add, JSNum.neg, JSNum.gtb, JSNum.ltb]
    | fin b =>
      simp only [JSNum.sub, JSNum.add, JSNum.neg, JSNum.gtb, JSNum.ltb]
      rw [decide_eq_decide]
      constructor <;> intro h <;> linarith

theorem JSNum.ltb_asymm (a b : JSNum) (h : JSNum.ltb a b = true) :
    JSNum.ltb b a = false := by
  cases a <;> cases b <;> simp_all [JSNum.ltb] <;> linarith

theorem JSNum.ltb_trans (a b c : JSNum) (h1 : JSNum.ltb a b = true)
    (h2 : JSNum.ltb b c = true) : JSNum.ltb a c = true := by
  cases a <;> cases b <;> cases c <;> simp_all [JSNum.ltb] <;> linarith

theorem JSNum.sub_neg_neg (a b : JSNum) :
    JSNum.sub (JSNum.neg a) (JSNum.neg b) = JSNum.sub b a := by
  cases a with
  | nan => cases b <;> simp [JSNum.sub, JSNum.add, JSNum.neg]
  | inf p =>
    cases b with
    | nan => simp [JSNum.sub, JSNum.add, JSNum.neg]
    | inf q => cases p <;> cases q <;> simp [JSNum.sub, JSNum.add, JSNum.neg]
    | fin q => simp [JSNum.sub, JSNum.add, JSNum.neg]
  | fin a =>
    cases b with
    | nan => simp [JSNum.sub, JSNum.add, JSNum.neg]
    | inf q => simp [JSNum.sub, JSNum.add, JSNum.neg]
    | fin b =>
      simp only [JSNum.sub, JSNum.add, JSNum.neg, JSNum.fin.injEq]
      ring

theorem JSNum.ltb_neg_neg (a b : JSNum) :
    JSNum.ltb (JSNum.neg a) (JSNum.neg b) = JSNum.ltb b a := by
  cases a with
  | nan => cases b <;> simp [JSNum.neg, JSNum.ltb]
  | inf p =>
    cases b with
    | nan => simp [JSNum.neg, JSNum.ltb]
    | inf q => cases p <;> cases q <;> simp [JSNum.neg, JSNum.ltb]
    | fin q => cases p <;> simp [JSNum.neg, JSNum.ltb]
  | fin a =>
    cases b with
    | nan => simp [JSNum.neg, JSNum.ltb]
    | inf q => cases q <;> simp [JSNum.neg, JSNum.ltb]
    | fin b =>
      simp only [JSNum.neg, JSNum.ltb]
      rw [decide_eq_decide]
      constructor <;> intro h <;> linarith

/-- Inserting into a list sorted by a subtraction comparator over a numeric
key keeps the comparable keys in nondecreasing order (pairs involving a
NaN key are unconstrained, matching the comparator treating them as
equal). -/
theorem jsInsert_pairwise_key {α : Type} (k : α → JSNum) (x : α) (l : List α)
    (h : l.Pairwise (fun a b => JSNum.ltb (k b) (k a) = false)) :
    (jsInsert (fun a b => !(JSNum.gtb (JSNum.sub (k a) (k b)) (.fin 0))) x l).Pairwise
      (fun a b => JSNum.ltb (k b) (k a) = false) := by
  induction l with
  | nil => simp [jsInsert]
  | cons y t ih =>
    rw [List.pairwise_cons] at h
    obtain ⟨hy, ht⟩ := h
    by_cases hle : (!(JSNum.gtb (JSNum.sub (k y) (k x)) (.fin 0))) = true
    · rw [jsInsert, if_pos hle, List.pairwise_cons]
      refine ⟨?_, ih ht⟩
      intro z hz
      rcases List.mem_cons.mp ((jsInsert_perm _ x t).mem_iff.mp hz) with hzx | hzt
      · subst hzx
        rw [JSNum.gtb_sub_zero] at hle
        simpa using hle
      · exact hy z hzt
    · rw [jsInsert, if_neg hle, List.pairwise_cons]
      have hlt : JSNum.ltb (k x) (k y) = true := by
        rw [JSNum.gtb_sub_zero] at hle
        simpa using hle
      refine ⟨?_, List.pairwise_cons.mpr ⟨hy, ht⟩⟩
      intro z hz
      rcases List.mem_cons.mp hz with hzy | hzt
      · subst hzy
        exact JSNum.ltb_asymm _ _ hlt
      · by_contra hzz
        rw [Bool.not_eq_false] at hzz
        have := JSNum.ltb_trans _ _ _ hzz hlt
        rw [hy z hzt] at this
        exact Bool.false_ne_true this

/-- A comparator-based sort over a numeric key produces comparable keys in
nondecreasing order. -/
theorem jsSortBy_pairwise_key {α : Type} (k : α → JSNum) (l : List α) :
    (jsSortBy (fun a b => !(JSNum.gtb (JSNum.sub (k a) (k b)) (.fin 0))) l).Pairwise
      (fun a b => JSNum.ltb (k b) (k a) = false) := by
  have aux : ∀ (l acc : List α),
      acc.Pairwise (fun a b => JSNum.ltb (k b) (k a) = false) →
      (l.foldl (fun acc x =>
          jsInsert (fun a b => !(JSNum.gtb (JSNum.sub (k a) (k b)) (.fin 0))) x acc)
        acc).Pairwise (fun a b => JSNum.ltb (k b) (k a) = false) := by
    intro l
    induction l with
    | nil => intro acc hacc; simpa using hacc
    | cons x t ih =>
      intro acc hacc
      exact ih _ (jsInsert_pairwise_key k x acc hacc)
  exact aux l [] (by simp)

/-! Lemmas about first-occurrence deduplication. -/

theorem mem_dedupSeen {α : Type} [DecidableEq α] (seen l : List α) (a : α) :
    a ∈ dedupSeen seen l ↔ a ∈ l ∧ a ∉ seen := by
  induction l generalizing seen with
  | nil => simp [dedupSeen]
  | cons x t ih =>
    by_cases hx : x ∈ seen
    · rw [dedupSeen, if_pos hx, ih]
      constructor
      · rintro ⟨h1, h2⟩
        exact ⟨List.mem_cons_of_mem _ h1, h2⟩
      · rintro ⟨h1, h2⟩
        rcases List.mem_cons.mp h1 with rfl | h1
        · exact absurd hx h2
        · exact ⟨h1, h2⟩
    · rw [dedupSeen, if_neg hx]
      constructor
      · intro h
        rcases List.mem_cons.mp h with rfl | h
        · exact ⟨List.mem_cons_self _ _, hx⟩
        · obtain ⟨h1, h2⟩ := (ih _).mp h
          exact ⟨List.mem_cons_of_mem _ h1, fun hs => h2 (List.mem_cons_of_mem _ hs)⟩
      · rintro ⟨h1, h2⟩
        by_cases hax : a = x
        · subst hax
          exact List.mem_cons_self _ _
        · rcases List.mem_cons.mp h1 with rfl | h1
          · exact absurd rfl hax
          · refine List.mem_cons_of_mem _ ((ih _).mpr ⟨h1, fun hs => ?_⟩)
            rcases List.mem_cons.mp hs with h | h
            · exact hax h
            · exact h2 h

theorem mem_dedupFirst {α : Type} [DecidableEq α] (l : List α) (a : α) :
    a ∈ dedupFirst l ↔ a ∈ l := by
  rw [dedupFirst, mem_dedupSeen]
  simp

theorem dedupSeen_append_singleton {α : Type} [DecidableEq α] (seen l : List α) (a : α) :
    dedupSeen seen (l ++ [a]) =
      dedupSeen seen l ++ (if a ∈ seen ∨ a ∈ l then [] else [a]) := by
  induction l generalizing seen with
  | nil =>
    by_cases h : a ∈ seen <;> simp [dedupSeen, h]
  | cons x t ih =>
    by_cases hx : x ∈ seen
    · rw [List.cons_append, dedupSeen, if_pos hx, dedupSeen, if_pos hx, ih]
      have hc : (a ∈ seen ∨ a ∈ t) ↔ (a ∈ seen ∨ a ∈ x :: t) := by
        constructor
        · rintro (h | h)
          · exact Or.inl h
          · exact Or.inr (List.mem_cons_of_mem _ h)
        · rintro (h | h)
          · exact Or.inl h
          · rcases List.mem_cons.mp h with rfl | h
            · exact Or.inl hx
            · exact Or.inr h
      rw [if_congr hc rfl rfl]
    · rw [List.cons_append, dedupSeen, if_neg hx, dedupSeen, if_neg hx, ih]
      have hc : (a ∈ x :: seen ∨ a ∈ t) ↔ (a ∈ seen ∨ a ∈ x :: t) := by
        constructor
        · rintro (h | h)
          · rcases List.mem_cons.mp h with rfl | h
            · exact Or.inr (List.mem_cons_self _ _)
            · exact Or.inl h
          · exact Or.inr (List.mem_cons_of_mem _ h)
        · rintro (h | h)
          · exact Or.inl (List.mem_cons_of_mem _ h)
          · rcases List.mem_cons.mp h with rfl | h
            · exact Or.inl (List.mem_cons_self _ _)
            · exact Or.inr h
      rw [if_congr hc rfl rfl]
      simp

theorem dedupFirst_append_singleton {α : Type} [DecidableEq α] (l : List α) (a : α) :
    dedupFirst (l ++ [a]) = dedupFirst l ++ (if a ∈ l then [] else [a]) := by
  rw [dedupFirst, dedupSeen_append_singleton]
  simp [dedupFirst]

/-! Commutation lemmas between `map`, `filter` and the stable sort. -/

theorem jsInsert_map {α β : Type} (le : α → α → Bool) (le' : β → β → Bool) (f : α → β)
    (hc : ∀ a b, le' (f a) (f b) = le a b) (x : α) (l : List α) :
    (jsInsert le x l).map f = jsInsert le' (f x) (l.map f) := by
  induction l with
  | nil => rfl
  | cons y t ih =>
    show (if le y x then y :: jsInsert le x t else x :: y :: t).map f =
      if le' (f y) (f x) then f y :: jsInsert le' (f x) (t.map f)
      else f x :: f y :: t.map f
    rw [hc y x]
    cases h : le y x <;> simp [h, ih]

theorem jsSortBy_map {α β : Type} (le : α → α → Bool) (le' : β → β → Bool) (f : α → β)
    (hc : ∀ a b, le' (f a) (f b) = le a b) (l : List α) :
    (jsSortBy le l).map f = jsSortBy le' (l.map f) := by
  have aux : ∀ (l acc : List α),
      ((l.foldl (fun acc x => jsInsert le x acc) acc).map f) =
        (l.map f).foldl (fun acc x => jsInsert le' x acc) (acc.map f) := by
    intro l
    induction l with
    | nil => intro acc; rfl
    | cons x t ih =>
      intro acc
      rw [List.foldl_cons, List.map_cons, List.foldl_cons, ih,
        jsInsert_map le le' f hc]
  exact aux l []

theorem map_fst_filter_key {β : Type} (p : String → Bool) (o : List (String × β)) :
    (o.filter (fun e => p e.1)).map Prod.fst = (o.map Prod.fst).filter p := by
  induction o with
  | nil => rfl
  | cons e t ih => by_cases h : p e.1 <;> simp [h, ih]

/-- The values of an object, mapped back to their keys through any function
that recovers each entry's key, enumerate exactly `jsObjKeyOrder` of the
keys. -/
theorem objValuesOrder_map_eq_keyOrder {β : Type} (F : β → String) (o : List (String × β))
    (hF : ∀ p ∈ o, F p.2 = p.1) :
    (objValuesOrder o).map F = jsObjKeyOrder (o.map Prod.fst) := by
  unfold objValuesOrder jsObjKeyOrder
  rw [List.map_map, List.map_append]
  congr 1
  · have h1 : ∀ p ∈ jsSortBy idxKeyLe (o.filter (fun e => isArrayIndexKey e.1)),
        (F ∘ Prod.snd) p = Prod.fst p := by
      intro p hp
      exact hF p (List.mem_of_mem_filter ((mem_jsSortBy _ _ _).mp hp))
    rw [List.map_congr_left h1,
      jsSortBy_map idxKeyLe keyNatLe Prod.fst (fun a b => rfl),
      map_fst_filter_key isArrayIndexKey o]
  · have h2 : ∀ p ∈ o.filter (fun e => !isArrayIndexKey e.1),
        (F ∘ Prod.snd) p = Prod.fst p :=
      fun p hp => hF p (List.mem_of_mem_filter hp)
    rw [List.map_congr_left h2, map_fst_filter_key (fun k => !isArrayIndexKey k) o]

/-! Field access on the bar chart's group objects. -/

theorem objGet_barNewEntry_x (x y xv : String) (hxy : x ≠ y) (hxc : x ≠ "count") :
    objGet (barNewEntry x y xv) x = .vStr xv := by
  unfold barNewEntry
  rw [objGet_objSet_ne _ _ _ _ hxc, objGet_objSet_ne _ _ _ _ hxy, objGet_objSet_self]

theorem objGet_barNewEntry_y (x y xv : String) (hyc : y ≠ "count") :
    objGet (barNewEntry x y xv) y = .vNum (.fin 0) := by
  unfold barNewEntry
  rw [objGet_objSet_ne _ _ _ _ hyc, objGet_objSet_self]

theorem objGet_barEntryUpdate_x (x y : String) (n : JSNum) (e : JSObj)
    (hxy : x ≠ y) (hxc : x ≠ "count") :
    objGet (barEntryUpdate y n e) x = objGet e x := by
  unfold barEntryUpdate
  rw [objGet_objSet_ne _ _ _ _ hxc, objGet_objSet_ne _ _ _ _ hxy]

theorem objGet_barEntryUpdate_y (y : String) (n : JSNum) (e : JSObj)
    (hyc : y ≠ "count") :
    objGet (barEntryUpdate y n e) y = jsPlus (objGet e y) (.vNum n) := by
  unfold barEntryUpdate
  rw [objGet_objSet_ne _ _ _ _ hyc, objGet_objSet_self]

theorem jsPlus_vNum (a b : JSNum) :
    jsPlus (.vNum a) (.vNum b) = .vNum (a.add b) := rfl

/-! The conditional group sum, under appending one row. -/

theorem sumGroup_append (x y k : String) (d : List JSObj) (r : JSObj) :
    sumGroup x y k (d ++ [r]) =
      if groupLabel x r = k ∧ isNumeric (objGet r y) = true then
        (sumGroup x y k d).add (jsToNumber (objGet r y))
      else sumGroup x y k d := by
  unfold sumGroup
  rw [List.foldl_append, List.foldl_cons, List.foldl_nil]

theorem sumGroup_of_not_mem (x y k : String) (d : List JSObj)
    (h : k ∉ d.map (groupLabel x)) : sumGroup x y k d = .fin 0 := by
  have aux : ∀ (d : List JSObj) (init : JSNum), (∀ r ∈ d, groupLabel x r ≠ k) →
      d.foldl (fun s r =>
        if groupLabel x r = k ∧ isNumeric (objGet r y) = true then
          s.add (jsToNumber (objGet r y))
        else s) init = init := by
    intro d
    induction d with
    | nil => intro init _; rfl
    | cons r t ih =>
      intro init hr
      rw [List.foldl_cons, if_neg]
      · exact ih _ (fun s hs => hr s (List.mem_cons_of_mem _ hs))
      · rintro ⟨h1, _⟩
        exact hr r (List.mem_cons_self _ _) h1
  exact aux d _ (fun r hr hlab => h (List.mem_map.mpr ⟨r, hr, hlab⟩))

theorem barGroupStep_eq (x y : String) (acc : List (String × JSObj)) (r : JSObj) :
    barGroupStep x y acc r =
      if isNumeric (objGet r y) = true then
        assocUpdate (groupLabel x r) (barEntryUpdate y (jsToNumber (objGet r y)))
          (if accHasTruthy (groupLabel x r) acc = true then acc
           else acc ++ [(groupLabel x r, barNewEntry x y (groupLabel x r))])
      else
        if accHasTruthy (groupLabel x r) acc = true then acc
        else acc ++ [(groupLabel x r, barNewEntry x y (groupLabel x r))] := rfl

/-! The prototype-chain truthiness check and own-label bookkeeping. -/

theorem accHasTruthy_of_proto {β : Type} (k : String) (acc : List (String × β))
    (h : objectProtoKeys.contains k = true) : accHasTruthy k acc = true := by
  unfold accHasTruthy
  rw [h, Bool.or_true]

theorem accHasTruthy_of_nonproto {β : Type} (k : String) (acc : List (String × β))
    (h : objectProtoKeys.contains k = false) :
    accHasTruthy k acc = (assocFind k acc).isSome := by
  unfold accHasTruthy
  rw [h, Bool.or_false]

theorem assocUpdate_of_not_mem {β : Type} (k : String) (f : β → β)
    (o : List (String × β)) (h : k ∉ o.map Prod.fst) : assocUpdate k f o = o := by
  induction o with
  | nil => rfl
  | cons p t ih =>
    have hp : p.1 ≠ k := fun hc => h (by simp [hc])
    have ht := ih (fun hc => h (by simp [hc]))
    unfold assocUpdate at ht ⊢
    rw [List.map_cons, if_neg hp, ht]

theorem ownLabels_append (x : String) (d : List JSObj) (r : JSObj) :
    ownLabels x (d ++ [r]) =
      ownLabels x d ++
        (if objectProtoKeys.contains (groupLabel x r) = true then []
         else [groupLabel x r]) := by
  unfold ownLabels
  rw [List.map_append, List.filter_append, List.map_singleton]
  by_cases h : objectProtoKeys.contains (groupLabel x r) = true
  · rw [if_pos h]
    have hm : groupLabel x r ∈ objectProtoKeys := by simpa using h
    simp [hm]
  · have h2 : objectProtoKeys.contains (groupLabel x r) = false := by simpa using h
    have hm : groupLabel x r ∉ objectProtoKeys := by simpa using h2
    rw [if_neg h]
    simp [hm]

theorem mem_ownLabels {x k : String} {data : List JSObj}
    (h : k ∈ ownLabels x data) :
    k ∈ data.map (groupLabel x) ∧ objectProtoKeys.contains k = false := by
  unfold ownLabels at h
  obtain ⟨hm, hf⟩ := List.mem_filter.mp h
  refine ⟨hm, ?_⟩
  simpa using hf

theorem mem_ownLabels_of_nonproto {x k : String} {data : List JSObj}
    (hk : objectProtoKeys.contains k = false) (h : k ∈ data.map (groupLabel x)) :
    k ∈ ownLabels x data := by
  have hm : k ∉ objectProtoKeys := by simpa using hk
  unfold ownLabels
  exact List.mem_filter.mpr ⟨h, by simp [hm]⟩

/-- Invariant of the bar chart's `reduce`: the accumulator's keys are the
first-seen group labels that do not collide with an `Object.prototype`
member (a colliding label never creates an own entry), each group object
records its own label under the x key and the running conditional sum
under the y key. Requires the two axis columns to be distinct and
different from the literal key `"count"` (on colliding column names the
object literal overwrites fields). -/
theorem barFold_invariant (x y : String) (hxy : x ≠ y) (hxc : x ≠ "count")
    (hyc : y ≠ "count") (data : List JSObj) :
    ((data.foldl (barGroupStep x y) []).map Prod.fst =
      dedupFirst (ownLabels x data)) ∧
    ∀ p ∈ data.foldl (barGroupStep x y) [],
      objGet p.2 x = .vStr p.1 ∧ objGet p.2 y = .vNum (sumGroup x y p.1 data) := by
  induction data using List.reverseRecOn with
  | nil =>
    refine ⟨rfl, ?_⟩
    intro p hp
    simp at hp
  | append_singleton d r ih =>
    obtain ⟨ihk, ihe⟩ := ih
    rw [List.foldl_append, List.foldl_cons, List.foldl_nil]
    by_cases hproto : objectProtoKeys.contains (groupLabel x r) = true
    · have hnotk : groupLabel x r ∉ (d.foldl (barGroupStep x y) []).map Prod.fst := by
        rw [ihk, mem_dedupFirst]
        intro hc
        have h2 := (mem_ownLabels hc).2
        rw [hproto] at h2
        exact Bool.noConfusion h2
      have hstep : barGroupStep x y (d.foldl (barGroupStep x y) []) r =
          d.foldl (barGroupStep x y) [] := by
        rw [barGroupStep_eq, accHasTruthy_of_proto _ _ hproto]
        by_cases hnum : isNumeric (objGet r y) = true
        · rw [if_pos hnum, if_pos rfl, assocUpdate_of_not_mem _ _ _ hnotk]
        · rw [if_neg hnum, if_pos rfl]
      rw [hstep, ownLabels_append, if_pos hproto, List.append_nil]
      refine ⟨ihk, ?_⟩
      intro p hp
      obtain ⟨hqx, hqy⟩ := ihe p hp
      have hpk : objectProtoKeys.contains p.1 = false := by
        have hm : p.1 ∈ (d.foldl (barGroupStep x y) []).map Prod.fst :=
          List.mem_map_of_mem Prod.fst hp
        rw [ihk, mem_dedupFirst] at hm
        exact (mem_ownLabels hm).2
      have hne : ¬(groupLabel x r = p.1 ∧ isNumeric (objGet r y) = true) := by
        rintro ⟨h1, _⟩
        rw [h1, hpk] at hproto
        exact Bool.noConfusion hproto
      rw [sumGroup_append, if_neg hne]
      exact ⟨hqx, hqy⟩
    · have hproto2 : objectProtoKeys.contains (groupLabel x r) = false := by
        simpa using hproto
      have hmemiff : (assocFind (groupLabel x r) (d.foldl (barGroupStep x y) [])).isSome
          = true ↔ groupLabel x r ∈ ownLabels x d := by
        rw [assocFind_isSome_iff, ihk, mem_dedupFirst]
      constructor
      · show (barGroupStep x y (d.foldl (barGroupStep x y) []) r).map Prod.fst = _
        rw [ownLabels_append, if_neg hproto, dedupFirst_append_singleton, ← ihk,
          barGroupStep_eq, accHasTruthy_of_nonproto _ _ hproto2]
        by_cases hnum : isNumeric (objGet r y) = true
        · rw [if_pos hnum, assocUpdate_map_fst]
          by_cases hmem : (assocFind (groupLabel x r) (d.foldl (barGroupStep x y) [])).isSome = true
          · rw [if_pos hmem, if_pos (hmemiff.mp hmem)]
            simp
          · rw [if_neg hmem, if_neg (fun hc => hmem (hmemiff.mpr hc))]
            simp
        · rw [if_neg hnum]
          by_cases hmem : (assocFind (groupLabel x r) (d.foldl (barGroupStep x y) [])).isSome = true
          · rw [if_pos hmem, if_pos (hmemiff.mp hmem)]
            simp
          · rw [if_neg hmem, if_neg (fun hc => hmem (hmemiff.mpr hc))]
            simp
      · intro p hp
        have hsum := sumGroup_append x y p.1 d r
        rw [barGroupStep_eq, accHasTruthy_of_nonproto _ _ hproto2] at hp
        by_cases hnum : isNumeric (objGet r y) = true
        · rw [if_pos hnum] at hp
          by_cases hmem : (assocFind (groupLabel x r) (d.foldl (barGroupStep x y) [])).isSome = true
          · rw [if_pos hmem] at hp
            obtain ⟨q, hq, hpq⟩ := mem_assocUpdate _ _ _ p hp
            obtain ⟨hqx, hqy⟩ := ihe q hq
            by_cases hql : q.1 = groupLabel x r
            · rw [if_pos hql] at hpq
              subst hpq
              dsimp only at hsum ⊢
              rw [hsum, if_pos ⟨rfl, hnum⟩]
              constructor
              · rw [objGet_barEntryUpdate_x x y _ _ hxy hxc, hqx, hql]
              · rw [objGet_barEntryUpdate_y y _ _ hyc, hqy, jsPlus_vNum, hql]
            · rw [if_neg hql] at hpq
              subst hpq
              rw [hsum, if_neg (fun hc => hql hc.1.symm)]
              exact ⟨hqx, hqy⟩
          · rw [if_neg hmem] at hp
            obtain ⟨q, hq, hpq⟩ := mem_assocUpdate _ _ _ p hp
            rcases List.mem_append.mp hq with hqA | hqNew
            · obtain ⟨hqx, hqy⟩ := ihe q hqA
              by_cases hql : q.1 = groupLabel x r
              · exfalso
                exact hmem ((assocFind_isSome_iff _ _).mpr
                  (hql ▸ List.mem_map.mpr ⟨q, hqA, rfl⟩))
              · rw [if_neg hql] at hpq
                subst hpq
                rw [hsum, if_neg (fun hc => hql hc.1.symm)]
                exact ⟨hqx, hqy⟩
            · have hqeq : q = (groupLabel x r, barNewEntry x y (groupLabel x r)) := by
                simpa using hqNew
              subst hqeq
              rw [if_pos rfl] at hpq
              subst hpq
              dsimp only at hsum ⊢
              have hz : sumGroup x y (groupLabel x r) d = .fin 0 :=
                sumGroup_of_not_mem x y _ d
                  (fun hc => hmem (hmemiff.mpr (mem_ownLabels_of_nonproto hproto2 hc)))
              rw [hsum, if_pos ⟨rfl, hnum⟩, hz]
              constructor
              · rw [objGet_barEntryUpdate_x x y _ _ hxy hxc,
                  objGet_barNewEntry_x x y _ hxy hxc]
              · rw [objGet_barEntryUpdate_y y _ _ hyc,
                  objGet_barNewEntry_y x y _ hyc, jsPlus_vNum]
        · rw [if_neg hnum] at hp
          by_cases hmem : (assocFind (groupLabel x r) (d.foldl (barGroupStep x y) [])).isSome = true
          · rw [if_pos hmem] at hp
            obtain ⟨hqx, hqy⟩ := ihe p hp
            rw [hsum, if_neg (fun hc => hnum hc.2)]
            exact ⟨hqx, hqy⟩
          · rw [if_neg hmem] at hp
            rcases List.mem_append.mp hp with hpA | hpNew
            · obtain ⟨hqx, hqy⟩ := ihe p hpA
              rw [hsum, if_neg (fun hc => hnum hc.2)]
              exact ⟨hqx, hqy⟩
            · have hpeq : p = (groupLabel x r, barNewEntry x y (groupLabel x r)) := by
                simpa using hpNew
              subst hpeq
              dsimp only at hsum ⊢
              have hz : sumGroup x y (groupLabel x r) d = .fin 0 :=
                sumGroup_of_not_mem x y _ d
                  (fun hc => hmem (hmemiff.mpr (mem_ownLabels_of_nonproto hproto2 hc)))
              rw [hsum, if_neg (fun hc => hnum hc.2), hz]
              exact ⟨objGet_barNewEntry_x x y _ hxy hxc, objGet_barNewEntry_y x y _ hyc⟩

/-! Field access on the bar chart's output items. -/

theorem objGet_barOutItem_x (rnd : ℕ → Fin 5) (x y : String) (p : ℕ × JSObj)
    (hxy : x ≠ y) (hxf : x ≠ "fill") :
    objGet (barOutItem rnd x y p) x = objGet p.2 x := by
  unfold barOutItem
  rw [objGet_objSet_ne _ _ _ _ hxf, objGet_objSet_ne _ _ _ _ hxy, objGet_objSet_self]

theorem objGet_barOutItem_y (rnd : ℕ → Fin 5) (x y : String) (p : ℕ × JSObj)
    (hyf : y ≠ "fill") :
    objGet (barOutItem rnd x y p) y = objGet p.2 y := by
  unfold barOutItem
  rw [objGet_objSet_ne _ _ _ _ hyf, objGet_objSet_self]

theorem objGet_barOutItem_fill (rnd : ℕ → Fin 5) (x y : String) (p : ℕ × JSObj) :
    objGet (barOutItem rnd x y p) "fill" = .vStr (chartFill ((rnd p.1).1 + 1)) := by
  unfold barOutItem
  rw [objGet_objSet_self]

/-- An element of `Object.values` is the value of some entry. -/
theorem mem_objValuesOrder {β : Type} (o : List (String × β)) (b : β)
    (hb : b ∈ objValuesOrder o) : ∃ p ∈ o, p.2 = b := by
  unfold objValuesOrder at hb
  obtain ⟨p, hp, rfl⟩ := List.mem_map.mp hb
  rcases List.mem_append.mp hp with h | h
  · exact ⟨p, List.mem_of_mem_filter ((mem_jsSortBy _ _ _).mp h), rfl⟩
  · exact ⟨p, List.mem_of_mem_filter h, rfl⟩

/-- The labels the bar chart emits: the non-prototype-colliding group keys
in `Object.values` enumeration order, truncated to 20. -/
theorem barChartData_labels (rnd : ℕ → Fin 5) (data : List JSObj) (x y : String)
    (hxy : x ≠ y) (hxc : x ≠ "count") (hyc : y ≠ "count") (hxf : x ≠ "fill") :
    (barChartData rnd data x y).map (fun o => objGet o x) =
      ((jsObjKeyOrder (dedupFirst (ownLabels x data))).take 20).map
        (fun k => JSVal.vStr k) := by
  obtain ⟨ihk, ihe⟩ := barFold_invariant x y hxy hxc hyc data
  unfold barChartData
  rw [List.map_take, List.map_map]
  have h1 : ∀ p ∈ (objValuesOrder (data.foldl (barGroupStep x y) [])).enum,
      ((fun o => objGet o x) ∘ barOutItem rnd x y) p =
        ((fun e => JSVal.vStr (xFieldStr x e)) ∘ Prod.snd) p := by
    intro p hp
    have hp2 : p.2 ∈ objValuesOrder (data.foldl (barGroupStep x y) []) := by
      have := List.mem_map_of_mem Prod.snd hp
      rwa [List.enum_map_snd] at this
    obtain ⟨q, hqA, hq2⟩ := mem_objValuesOrder _ _ hp2
    obtain ⟨hqx, _⟩ := ihe q hqA
    show objGet (barOutItem rnd x y p) x = JSVal.vStr (xFieldStr x p.2)
    rw [objGet_barOutItem_x rnd x y p hxy hxf, ← hq2, hqx, xFieldStr, hqx]
  rw [List.map_congr_left h1, ← List.map_map (fun e => JSVal.vStr (xFieldStr x e)) Prod.snd,
    List.enum_map_snd]
  have hsplit : List.map (fun e => JSVal.vStr (xFieldStr x e))
      (objValuesOrder (data.foldl (barGroupStep x y) [])) =
    List.map (fun k => JSVal.vStr k)
      ((objValuesOrder (data.foldl (barGroupStep x y) [])).map (xFieldStr x)) := by
    rw [List.map_map]
    rfl
  rw [hsplit, objValuesOrder_map_eq_keyOrder (xFieldStr x) _ (fun p hp => by
      obtain ⟨hqx, _⟩ := ihe p hp
      rw [xFieldStr, hqx]),
    ihk, List.map_take]

/-- Every bar chart item carries some group key's label and that group's
conditional sum. -/
theorem barChartData_values (rnd : ℕ → Fin 5) (data : List JSObj) (x y : String)
    (hxy : x ≠ y) (hxc : x ≠ "count") (hyc : y ≠ "count") (hxf : x ≠ "fill")
    (hyf : y ≠ "fill") :
    ∀ item ∈ barChartData rnd data x y,
      ∃ k, k ∈ data.map (groupLabel x) ∧ objGet item x = .vStr k ∧
        objGet item y = .vNum (sumGroup x y k data) := by
  obtain ⟨ihk, ihe⟩ := barFold_invariant x y hxy hxc hyc data
  intro item hit
  unfold barChartData at hit
  have hit' := List.mem_of_mem_take hit
  obtain ⟨p, hp, rfl⟩ := List.mem_map.mp hit'
  have hp2 : p.2 ∈ objValuesOrder (data.foldl (barGroupStep x y) []) := by
    have := List.mem_map_of_mem Prod.snd hp
    rwa [List.enum_map_snd] at this
  obtain ⟨q, hqA, hq2⟩ := mem_objValuesOrder _ _ hp2
  obtain ⟨hqx, hqy⟩ := ihe q hqA
  refine ⟨q.1, ?_, ?_, ?_⟩
  · have : q.1 ∈ (data.foldl (barGroupStep x y) []).map Prod.fst :=
      List.mem_map_of_mem Prod.fst hqA
    rw [ihk, mem_dedupFirst] at this
    exact (mem_ownLabels this).1
  · rw [objGet_barOutItem_x rnd x y p hxy hxf, ← hq2, hqx]
  · rw [objGet_barOutItem_y rnd x y p hyf, ← hq2, hqy]

/-- The bar chart emits at most 20 items. -/
theorem barChartData_length (rnd : ℕ → Fin 5) (data : List JSObj) (x y : String) :
    (barChartData rnd data x y).length ≤ 20 := by
  unfold barChartData
  rw [List.length_take]
  exact min_le_left _ _

/-! Support lemmas for the pie aggregation's output shape. -/

theorem pieCmpLe_eq : pieCmpLe = fun a b : PieEntry =>
    !(JSNum.gtb (JSNum.sub (JSNum.neg a.value) (JSNum.neg b.value)) (.fin 0)) := by
  funext a b
  rw [JSNum.sub_neg_neg]
  rfl

/-- Pie slices come out with values in non-increasing order (strict
comparison from an earlier to a later slice is never `<`). -/
theorem pieChartData_sorted (data : List JSObj)
    (labelCol valCol stateCol selectedState : String) (groupByState : Bool) :
    (pieChartData data labelCol valCol stateCol selectedState groupByState).Pairwise
      (fun a b => JSNum.ltb a.value b.value = false) := by
  unfold pieChartData
  refine List.Pairwise.sublist (List.take_sublist _ _) ?_
  rw [pieCmpLe_eq]
  refine List.Pairwise.imp ?_
    (jsSortBy_pairwise_key (fun e : PieEntry => JSNum.neg e.value) _)
  intro a b hab
  rwa [JSNum.ltb_neg_neg] at hab

/-- Every pie slice has a strictly positive value. -/
theorem pieChartData_pos (data : List JSObj)
    (labelCol valCol stateCol selectedState : String) (groupByState : Bool) :
    ∀ e ∈ pieChartData data labelCol valCol stateCol selectedState groupByState,
      JSNum.gtb e.value (.fin 0) = true := by
  intro e he
  unfold pieChartData at he
  have h1 := List.mem_of_mem_take he
  have h2 := (mem_jsSortBy _ _ _).mp h1
  exact (List.mem_filter.mp h2).2

/-- The pie chart emits at most 12 slices. -/
theorem pieChartData_length (data : List JSObj)
    (labelCol valCol stateCol selectedState : String) (groupByState : Bool) :
    (pieChartData data labelCol valCol stateCol selectedState groupByState).length ≤ 12 := by
  unfold pieChartData
  rw [List.length_take]
  exact min_le_left _ _

/-! Support lemmas for the line chart's sorting phase. -/

theorem lineSortedData_perm (data : List JSObj) (x : String) :
    (lineSortedData data x).Perm data := by
  unfold lineSortedData
  by_cases hd : lineIsDate data x = true
  · rw [if_pos hd]
    exact jsSortBy_perm _ _
  · rw [if_neg hd]
    by_cases hn : lineIsNum data x = true
    · rw [if_pos hn]
      exact jsSortBy_perm _ _
    · rw [if_neg hn]

theorem lineSortedData_pairwise_date (data : List JSObj) (x : String)
    (hd : lineIsDate data x = true) :
    (lineSortedData data x).Pairwise (fun a b =>
      JSNum.ltb (jsDateVal (objGet b x)) (jsDateVal (objGet a x)) = false) := by
  unfold lineSortedData
  rw [if_pos hd]
  have hle : dateCmpLe x = fun a b : JSObj =>
      !(JSNum.gtb (JSNum.sub (jsDateVal (objGet a x)) (jsDateVal (objGet b x)))
        (.fin 0)) := rfl
  rw [hle]
  exact jsSortBy_pairwise_key (fun r : JSObj => jsDateVal (objGet r x)) data

theorem lineSortedData_pairwise_num (data : List JSObj) (x : String)
    (hd : lineIsDate data x = false) (hn : lineIsNum data x = true) :
    (lineSortedData data x).Pairwise (fun a b =>
      JSNum.ltb (jsToNumber (objGet b x)) (jsToNumber (objGet a x)) = false) := by
  unfold lineSortedData
  rw [if_neg (by simp [hd]), if_pos hn]
  have hle : numCmpLe x = fun a b : JSObj =>
      !(JSNum.gtb (JSNum.sub (jsToNumber (objGet a x)) (jsToNumber (objGet b x)))
        (.fin 0)) := rfl
  rw [hle]
  exact jsSortBy_pairwise_key (fun r : JSObj => jsToNumber (objGet r x)) data

theorem lineSortedData_id (data : List JSObj) (x : String)
    (hd : lineIsDate data x = false) (hn : lineIsNum data x = false) :
    lineSortedData data x = data := by
  unfold lineSortedData
  rw [if_neg (by simp [hd]), if_neg (by simp [hn])]

theorem lineSeriesRows_sublist (data : List JSObj) (x g sel : String) (showAll : Bool) :
    (lineSeriesRows data x g sel showAll).Sublist (lineSortedData data x) := by
  unfold lineSeriesRows lineFilteredData
  by_cases hst : (g ≠ "" && !showAll && sel ≠ "") = true
  · rw [if_pos hst]
    exact (List.take_sublist _ _).trans
      ((List.filter_sublist _).trans (List.filter_sublist _))
  · rw [if_neg hst]
    exact (List.take_sublist _ _).trans (List.filter_sublist _)

theorem lineChartData_eq_map (data : List JSObj) (x y g sel : String) (showAll : Bool) :
    lineChartData data x y g sel showAll =
      (lineSeriesRows data x g sel showAll).map (lineMkItem x y g) := by
  unfold lineChartData lineSeriesRows
  rw [List.map_take]

/-! Claim C1: the value classifier. -/

/-- C1 (counterexample): the claim says `isNumeric` accepts a value when
EITHER conversion yields a valid number, so `"12abc"` (accepted by
`parseFloat`) should give `true`; the code conjoins the two checks and
returns `false` on `"12abc"`. -/
theorem claim1_counterexample :
    isNumeric (.vStr "12abc") = false ∧ (jsParseFloat "12abc").isNaNb = false := by
  with_unfolding_all decide

/-- C1 (amended): `isNumeric` returns false on `null`, `undefined` and the
empty string; on every other value it returns true iff BOTH the strict
`Number` conversion and the `parseFloat` conversion of the trimmed
stringification yield valid numbers — hence true on `"42"`, `"3.14"`,
`"-7"` and false on the prefix-only string `"12abc"`. -/
theorem claim1_amended :
    (isNumeric .vNull = false ∧ isNumeric .vUndefined = false ∧
      isNumeric (.vStr "") = false) ∧
    (∀ v : JSVal, v ≠ .vNull → v ≠ .vUndefined → v ≠ .vStr "" →
      (isNumeric v = true ↔
        ((jsStrToNumber (jsTrim (jsToString v))).isNaNb = false ∧
          (jsParseFloat (jsTrim (jsToString v))).isNaNb = false))) ∧
    isNumeric (.vStr "42") = true ∧ isNumeric (.vStr "3.14") = true ∧
    isNumeric (.vStr "-7") = true ∧ isNumeric (.vStr "12abc") = false := by
  refine ⟨by with_unfolding_all decide, ?_, by with_unfolding_all decide,
    by with_unfolding_all decide, by with_unfolding_all decide,
    by with_unfolding_all decide⟩
  intro v h1 h2 h3
  unfold isNumeric
  rw [if_neg (by tauto)]
  simp [Bool.and_eq_true, Bool.not_eq_true']

/-- C1 (witness): the amended equivalence applied at `"42"`. -/
theorem claim1_witness :
    isNumeric (.vStr "42") = true ↔
      ((jsStrToNumber (jsTrim (jsToString (.vStr "42")))).isNaNb = false ∧
        (jsParseFloat (jsTrim (jsToString (.vStr "42")))).isNaNb = false) :=
  claim1_amended.2.1 (.vStr "42") (by decide) (by decide) (by decide)

/-! Claim C2: shape of the pie aggregation output. -/

/-- C2 (counterexample): two groups with equal positive sums are emitted in
a tie, so the output is NOT sorted strictly descending as claimed. -/
theorem claim2_counterexample :
    pieChartData pieTieData "l" "v" "" "" false =
      [⟨"A", .fin 10⟩, ⟨"B", .fin 10⟩] ∧
    ¬ (pieChartData pieTieData "l" "v" "" "" false).Pairwise
      (fun a b => JSNum.ltb b.value a.value = true) := by
  with_unfolding_all decide

/-- C2 (amended): for every dataset and every selection, the pie output has
no slice with value `≤ 0`, is sorted in NON-INCREASING order by value
(ties possible), and has at most 12 entries. -/
theorem claim2_amended (data : List JSObj)
    (labelCol valCol stateCol selectedState : String) (groupByState : Bool) :
    (∀ e ∈ pieChartData data labelCol valCol stateCol selectedState groupByState,
      JSNum.gtb e.value (.fin 0) = true) ∧
    (pieChartData data labelCol valCol stateCol selectedState groupByState).Pairwise
      (fun a b => JSNum.ltb a.value b.value = false) ∧
    (pieChartData data labelCol valCol stateCol selectedState groupByState).length ≤ 12 :=
  ⟨pieChartData_pos data labelCol valCol stateCol selectedState groupByState,
   pieChartData_sorted data labelCol valCol stateCol selectedState groupByState,
   pieChartData_length data labelCol valCol stateCol selectedState groupByState⟩

/-- C2 (witness): a concrete emitted slice indeed has positive value. -/
theorem claim2_witness :
    (⟨"A", .fin 10⟩ : PieEntry) ∈ pieChartData pieTieData "l" "v" "" "" false ∧
    JSNum.gtb (PieEntry.mk "A" (.fin 10)).value (.fin 0) = true :=
  ⟨by with_unfolding_all decide,
   (claim2_amended pieTieData "l" "v" "" "" false).1 _ (by with_unfolding_all decide)⟩

/-! Claim C6: the insufficient-columns guard. -/

/-- C6: with fewer than two columns, each of the three chart components
renders the not-enough-columns message (and hence no chart series). -/
theorem claim6_insufficient_columns (rnd : ℕ → Fin 5) (data : List JSObj)
    (cols : List String) (h : cols.length < 2) :
    barView rnd data cols = .insufficientColumns ∧
    lineView data cols = .insufficientColumns ∧
    pieView data cols = .insufficientColumns := by
  unfold barView lineView pieView
  rw [if_pos h, if_pos h, if_pos h]
  exact ⟨rfl, rfl, rfl⟩

/-- C6 (witness): a one-column dataset reports insufficient columns in all
three components. -/
theorem claim6_witness :
    (["a"] : List String).length < 2 ∧
    barView rndZero [] ["a"] = .insufficientColumns ∧
    lineView [] ["a"] = .insufficientColumns ∧
    pieView [] ["a"] = .insufficientColumns :=
  ⟨by decide, (claim6_insufficient_columns rndZero [] ["a"] (by decide)).1,
   (claim6_insufficient_columns rndZero [] ["a"] (by decide)).2.1,
   (claim6_insufficient_columns rndZero [] ["a"] (by decide)).2.2⟩

/-! Claim C7: classification on the empty dataset. -/

/-- C7 (counterexample): on an empty dataset the bar chart's categorical
test tags EVERY column (the not-numeric disjunct is vacuously true), and a
column named `date` is still tagged Sequential by the name heuristic —
contradicting the claim that every role excludes every column. The
Numeric role does exclude all columns (the NaN comparison is false). -/
theorem claim7_counterexample :
    barCategoricalColumns [] ["a", "b"] = ["a", "b"] ∧
    lineSequentialColumns [] ["date"] = ["date"] ∧
    numericColumns [] ["a", "b"] = [] := by
  with_unfolding_all decide

/-- C7 (amended): on an empty dataset, the Numeric test and the pie
categorical test exclude every column (the `0/0 = NaN` comparison is
false, not a crash), the uniqueness-based Sequential and Geographic tests
exclude every column, but the bar categorical test includes every column
and the name heuristics still tag matching column names. -/
theorem claim7_amended (cols : List String) :
    numericColumns [] cols = [] ∧
    pieCategoricalColumns [] cols = [] ∧
    barCategoricalColumns [] cols = cols ∧
    lineSequentialColumns [] cols = cols.filter (nameHasKeyword dateKeywords) ∧
    stateColumnsOf [] cols = cols.filter (nameHasKeyword geoKeywords) := by
  have hnum : numericColumns [] cols = [] := by
    unfold numericColumns
    refine Eq.trans (@List.filter_congr String _ (fun _ => false) cols
      (fun c _ => by with_unfolding_all rfl)) (by simp)
  refine ⟨hnum, ?_, ?_, ?_, ?_⟩
  · unfold pieCategoricalColumns
    refine Eq.trans (@List.filter_congr String _ (fun _ => false) cols
      (fun c _ => by with_unfolding_all rfl)) (by simp)
  · unfold barCategoricalColumns
    simp only [hnum]
    refine Eq.trans (@List.filter_congr String _ (fun _ => true) cols
      (fun c _ => by with_unfolding_all rfl)) (by simp)
  · unfold lineSequentialColumns
    refine List.filter_congr (fun c _ => ?_)
    cases h : nameHasKeyword dateKeywords c
    all_goals with_unfolding_all rfl
  · unfold stateColumnsOf
    refine List.filter_congr (fun c _ => ?_)
    cases h : nameHasKeyword geoKeywords c
    all_goals with_unfolding_all rfl

/-! Claim C8: purity of the derived structures. -/

/-- C8 (counterexample): two renders of the bar chart over the identical
dataset and selections differ when the random stream differs — the
fill slot is not a pure function of (dataset, selection). -/
theorem claim8_counterexample :
    barChartData rndZero c8Data "a" "b" ≠ barChartData rndOne c8Data "a" "b" := by
  with_unfolding_all decide

/-- C8 (amended): apart from the bar chart's fill slot, the derived data is
deterministic: the bar output projected to its label and value fields is
the same for any two random streams, and every fill is one of the five
palette slots chosen by the stream. (The pie and line paths take no
random input at all: their embeddings are functions of the dataset and
selections only.) -/
theorem claim8_amended (x y : String) (hx : x ≠ "fill") (hy : y ≠ "fill")
    (rnd1 rnd2 : ℕ → Fin 5) (data : List JSObj) :
    ((barChartData rnd1 data x y).map (fun o => (objGet o x, objGet o y)) =
      (barChartData rnd2 data x y).map (fun o => (objGet o x, objGet o y))) ∧
    (∀ item ∈ barChartData rnd1 data x y, ∃ j, j < 5 ∧
      objGet item "fill" = .vStr (chartFill (j + 1))) := by
  constructor
  · unfold barChartData
    rw [List.map_take, List.map_take, List.map_map, List.map_map]
    have hpoint : ∀ p ∈ (objValuesOrder (data.foldl (barGroupStep x y) [])).enum,
        ((fun o => (objGet o x, objGet o y)) ∘ barOutItem rnd1 x y) p =
          ((fun o => (objGet o x, objGet o y)) ∘ barOutItem rnd2 x y) p := by
      intro p _
      show (objGet (barOutItem rnd1 x y p) x, objGet (barOutItem rnd1 x y p) y) =
        (objGet (barOutItem rnd2 x y p) x, objGet (barOutItem rnd2 x y p) y)
      unfold barOutItem
      rw [objGet_objSet_ne _ _ _ _ hx, objGet_objSet_ne _ _ _ _ hy,
        objGet_objSet_ne _ _ _ _ hx, objGet_objSet_ne _ _ _ _ hy]
    rw [List.map_congr_left hpoint]
  · intro item hit
    unfold barChartData at hit
    obtain ⟨p, _, rfl⟩ := List.mem_map.mp (List.mem_of_mem_take hit)
    exact ⟨(rnd1 p.1).1, (rnd1 p.1).2, objGet_barOutItem_fill rnd1 x y p⟩

/-- C8 (witness): the modulo-fill invariance at a concrete dataset and two
concrete random streams. -/
theorem claim8_witness :
    ("a" : String) ≠ "fill" ∧
    (barChartData rndZero c8Data "a" "b").map (fun o => (objGet o "a", objGet o "b")) =
      (barChartData rndOne c8Data "a" "b").map (fun o => (objGet o "a", objGet o "b")) :=
  ⟨by decide,
   (claim8_amended "a" "b" (by decide) (by decide) rndZero rndOne c8Data).1⟩

/-! Claim C3: grouping, sums, and output order of the aggregation. -/

set_option maxRecDepth 4000 in
/-- C3 (counterexample): with group keys `"2"` then `"1"` (array-index-like
strings), `Object.values` enumerates the groups in ascending numeric key
order, not first-seen insertion order: the output labels are `1, 2`
although `2` was seen first. -/
theorem claim3_counterexample :
    (barChartData rndZero barOrderData "k" "v").map (fun o => objGet o "k") =
      [.vStr "1", .vStr "2"] ∧
    dedupFirst (barOrderData.map (groupLabel "k")) = ["2", "1"] ∧
    (barChartData rndZero barOrderData "k" "v").map (fun o => objGet o "k") ≠
      (dedupFirst (barOrderData.map (groupLabel "k"))).map (fun k => JSVal.vStr k) := by
  with_unfolding_all decide

/-- C3 (amended): for distinct key/value columns named neither `count` nor
`fill` nor like an `Object.prototype` member (group updates against a
`__proto__`-labelled row would otherwise pollute those property names),
the aggregation groups rows by the truthiness-substituted stringified
key, each emitted item carries some group key's label and exactly the sum
of `Number(value)` over that group's `isNumeric`-passing rows, and groups
are emitted in JavaScript object key order restricted to the labels that
create own entries: a label colliding with an `Object.prototype` member
(`toString`, `constructor`, ...) is truthy on the empty accumulator and
is silently dropped — a sole `toString`-keyed row yields an empty chart —
while the remaining keys come out array-index-like ascending first, then
first-seen (plain first-seen order for non-numeric labels like `A`, `B`);
the spec's scenario yields `A:15` then `B:20`. -/
theorem claim3_amended (x y : String) (hxy : x ≠ y) (hxc : x ≠ "count")
    (hyc : y ≠ "count") (hxf : x ≠ "fill") (hyf : y ≠ "fill")
    (hxp : objectProtoKeys.contains x = false)
    (hyp : objectProtoKeys.contains y = false)
    (rnd : ℕ → Fin 5) (data : List JSObj) :
    ((barChartData rnd data x y).map (fun o => objGet o x) =
      ((jsObjKeyOrder (dedupFirst (ownLabels x data))).take 20).map
        (fun k => JSVal.vStr k)) ∧
    (∀ item ∈ barChartData rnd data x y,
      ∃ k, k ∈ data.map (groupLabel x) ∧ objGet item x = .vStr k ∧
        objGet item y = .vNum (sumGroup x y k data)) ∧
    (barChartData rndZero protoDropData "k" "v" = []) ∧
    ((barChartData rndZero exAggData "category" "amount").map
        (fun o => (objGet o "category", objGet o "amount")) =
      [(.vStr "A", .vNum (.fin 15)), (.vStr "B", .vNum (.fin 20))]) :=
  ⟨barChartData_labels rnd data x y hxy hxc hyc hxf,
   barChartData_values rnd data x y hxy hxc hyc hxf hyf,
   by with_unfolding_all decide,
   by with_unfolding_all decide⟩

/-- C3 (witness): the label-order characterization at the spec's example
dataset. -/
theorem claim3_witness :
    (barChartData rndZero exAggData "category" "amount").map
        (fun o => objGet o "category") =
      ((jsObjKeyOrder (dedupFirst (ownLabels "category" exAggData))).take 20).map
        (fun k => JSVal.vStr k) :=
  (claim3_amended "category" "amount" (by decide) (by decide) (by decide) (by decide)
    (by decide) (by with_unfolding_all decide) (by with_unfolding_all decide)
    rndZero exAggData).1

/-! Claim C5: shape of the bar aggregation output. -/

set_option maxRecDepth 8000 in
/-- C5 (counterexample): with 21 groups whose keys are `Z` then the index
strings `0`..`19`, the 20 kept groups are NOT the first 20 in first-seen
key order: `Z` (seen first) is dropped because `Object.values` sorts the
index keys ahead of it. -/
theorem claim5_counterexample :
    JSVal.vStr "Z" ∉ (barChartData rndZero barTruncData "k" "v").map
      (fun o => objGet o "k") ∧
    "Z" ∈ (dedupFirst (barTruncData.map (groupLabel "k"))).take 20 := by
  with_unfolding_all decide

/-- C5 (amended): for distinct key/value columns named neither `count` nor
`fill` nor like an `Object.prototype` member, the bar output has at most
20 entries, every emitted label is one of the group keys arising from the
input rows, no zero-filtering is applied (a group whose only value is
`-5` is emitted), and the kept groups are the first 20 — in JavaScript
object key order (array-index-like keys ascending, then first-seen
order) — of the labels that create own entries, labels colliding with an
`Object.prototype` member being dropped by the truthy `!acc[label]`
guard. -/
theorem claim5_amended (x y : String) (hxy : x ≠ y) (hxc : x ≠ "count")
    (hyc : y ≠ "count") (hxf : x ≠ "fill") (hyf : y ≠ "fill")
    (hxp : objectProtoKeys.contains x = false)
    (hyp : objectProtoKeys.contains y = false)
    (rnd : ℕ → Fin 5) (data : List JSObj) :
    ((barChartData rnd data x y).length ≤ 20) ∧
    (∀ item ∈ barChartData rnd data x y,
      ∃ k, k ∈ data.map (groupLabel x) ∧ objGet item x = .vStr k) ∧
    ((barChartData rnd data x y).map (fun o => objGet o x) =
      ((jsObjKeyOrder (dedupFirst (ownLabels x data))).take 20).map
        (fun k => JSVal.vStr k)) ∧
    ((barChartData rndZero negSumData "k" "v").map
        (fun o => (objGet o "k", objGet o "v")) =
      [(.vStr "A", .vNum (.fin (-5)))]) := by
  refine ⟨barChartData_length rnd data x y, ?_,
    barChartData_labels rnd data x y hxy hxc hyc hxf,
    by with_unfolding_all decide⟩
  intro item hit
  obtain ⟨k, hk, hkx, _⟩ := barChartData_values rnd data x y hxy hxc hyc hxf hyf item hit
  exact ⟨k, hk, hkx⟩

/-- C5 (witness): the truncation bound at the 21-group dataset. -/
theorem claim5_witness :
    (barChartData rndZero barTruncData "k" "v").length ≤ 20 :=
  (claim5_amended "k" "v" (by decide) (by decide) (by decide) (by decide)
    (by decide) (by with_unfolding_all decide) (by with_unfolding_all decide)
    rndZero barTruncData).1

/-! Claim C4: the line chart's series builder. -/

/-- The x field of a built item is either the row's raw x value or (when
the axes collide) the coerced y number. -/
theorem objGet_lineMkItem_x (x y g : String) (r : JSObj) :
    objGet (lineMkItem x y g r) x = objGet r x ∨
    objGet (lineMkItem x y g r) x =
      .vNum (if isNumeric (objGet r y) then jsToNumber (objGet r y) else .fin 0) := by
  unfold lineMkItem
  by_cases hg : g ≠ ""
  · rw [if_pos hg]
    by_cases hgx : x = g
    · left
      rw [hgx, objGet_objSet_self]
    · rw [objGet_objSet_ne _ _ _ _ hgx]
      by_cases hxy : x = y
      · right
        rw [hxy, objGet_objSet_self]
      · left
        rw [objGet_objSet_ne _ _ _ _ hxy, objGet_objSet_self]
  · rw [if_neg hg]
    by_cases hxy : x = y
    · right
      rw [hxy, objGet_objSet_self]
    · left
      rw [objGet_objSet_ne _ _ _ _ hxy, objGet_objSet_self]

/-- Rows surviving into the series passed the missing-x filter. -/
theorem lineSeriesRows_keep (data : List JSObj) (x g sel : String) (sh : Bool) :
    ∀ r ∈ lineSeriesRows data x g sel sh, lineKeepRow x r = true := by
  intro r hr
  unfold lineSeriesRows at hr
  exact (List.mem_filter.mp (List.mem_of_mem_take hr)).2

/-- Rows surviving into the series come from the dataset. -/
theorem lineSeriesRows_mem_data (data : List JSObj) (x g sel : String) (sh : Bool) :
    ∀ r ∈ lineSeriesRows data x g sel sh, r ∈ data := by
  intro r hr
  have h1 : r ∈ lineSortedData data x :=
    (lineSeriesRows_sublist data x g sel sh).subset hr
  exact (lineSortedData_perm data x).mem_iff.mp h1

/-- C4: the series builder sorts by parsed date when some x-value is
date-like, else numerically when some x-value is numeric, else preserves
the original order; date detection runs `Date.parse` on the stringified
value, modelled by the full ECMA-262 Date Time String Format (date-only
`YYYY[-MM[-DD]]` truncations, expanded years, and date-times with
optional seconds, milliseconds and `Z`/`±HH:mm` offsets — offset-less
date-times, host-local in ECMA-262, are taken at UTC, which no claim's
comparison depends on). When every row's x key is comparable (parses,
resp. is numeric — for rows with NaN keys ECMA-262 leaves the sort order
implementation-defined, so ordering is asserted only then) the kept rows
come out in nondecreasing key order; the builder keeps only rows whose x
value is present, builds each item from an input row with the y value
coerced (`0` if non-numeric), and truncates to 100 items; the spec's
two-date scenario comes out ascending (`2023-01-01` before
`2023-01-02`), and an ISO date-time dataset is detected as dates and
sorted by time of day. -/
theorem claim4_series_builder (data : List JSObj) (x y g sel : String) (sh : Bool) :
    ((lineChartData data x y g sel sh).length ≤ 100) ∧
    (∀ item ∈ lineChartData data x y g sel sh,
      ∃ r ∈ data, item = lineMkItem x y g r) ∧
    (∀ item ∈ lineChartData data x y g sel sh,
      objGet item x ≠ .vUndefined ∧ objGet item x ≠ .vNull) ∧
    (lineIsDate data x = true →
      (∀ r ∈ data, jsDateVal (objGet r x) ≠ JSNum.nan) →
      (lineSeriesRows data x g sel sh).Pairwise (fun a b =>
        JSNum.ltb (jsDateVal (objGet b x)) (jsDateVal (objGet a x)) = false)) ∧
    (lineIsDate data x = false → lineIsNum data x = true →
      (∀ r ∈ data, jsToNumber (objGet r x) ≠ JSNum.nan) →
      (lineSeriesRows data x g sel sh).Pairwise (fun a b =>
        JSNum.ltb (jsToNumber (objGet b x)) (jsToNumber (objGet a x)) = false)) ∧
    (lineIsDate data x = false → lineIsNum data x = false →
      lineSeriesRows data x "" "" true = (data.filter (lineKeepRow x)).take 100) ∧
    (lineChartData lineDateData "date" "v" "" "" true =
      [[("date", .vStr "2023-01-01"), ("v", .vNum (.fin 2))],
       [("date", .vStr "2023-01-02"), ("v", .vNum (.fin 1))]]) ∧
    (lineIsDate isoTimeData "date" = true ∧
      lineChartData isoTimeData "date" "v" "" "" true =
        [[("date", .vStr "2023-01-02T09:30"), ("v", .vNum (.fin 2))],
         [("date", .vStr "2023-01-02T10:00"), ("v", .vNum (.fin 1))]]) := by
  refine ⟨?_, ?_, ?_, ?_, ?_, ?_, by with_unfolding_all decide,
    by with_unfolding_all decide⟩
  · unfold lineChartData
    rw [List.length_take]
    exact min_le_left _ _
  · rw [lineChartData_eq_map]
    intro item hit
    obtain ⟨r, hr, rfl⟩ := List.mem_map.mp hit
    exact ⟨r, lineSeriesRows_mem_data data x g sel sh r hr, rfl⟩
  · rw [lineChartData_eq_map]
    intro item hit
    obtain ⟨r, hr, rfl⟩ := List.mem_map.mp hit
    have hkeep := lineSeriesRows_keep data x g sel sh r hr
    unfold lineKeepRow at hkeep
    rw [Bool.and_eq_true] at hkeep
    obtain ⟨hu, hn⟩ := hkeep
    rcases objGet_lineMkItem_x x y g r with hcase | hcase
    · rw [hcase]
      constructor
      · simpa using hu
      · simpa using hn
    · rw [hcase]
      exact ⟨by simp, by simp⟩
  · intro hd _
    exact List.Pairwise.sublist (lineSeriesRows_sublist data x g sel sh)
      (lineSortedData_pairwise_date data x hd)
  · intro hd hn _
    exact List.Pairwise.sublist (lineSeriesRows_sublist data x g sel sh)
      (lineSortedData_pairwise_num data x hd hn)
  · intro hd hn
    unfold lineSeriesRows lineFilteredData
    rw [if_neg (by simp), lineSortedData_id data x hd hn]

/-- C4 (witness): the date branch's ordering at the two-date dataset, whose
keys all parse. -/
theorem claim4_witness :
    lineIsDate lineDateData "date" = true ∧
    (∀ r ∈ lineDateData, jsDateVal (objGet r "date") ≠ JSNum.nan) ∧
    (lineSeriesRows lineDateData "date" "" "" true).Pairwise (fun a b =>
      JSNum.ltb (jsDateVal (objGet b "date")) (jsDateVal (objGet a "date")) = false) :=
  ⟨by with_unfolding_all decide, by with_unfolding_all decide,
   (claim4_series_builder lineDateData "date" "v" "" "" true).2.2.2.1
     (by with_unfolding_all decide) (by with_unfolding_all decide)⟩

/-! Claim C9: truthiness-based Unknown substitution in the grouping. -/

/-- C9: the shared grouping expression substitutes `"Unknown"` exactly for
falsy raw key values (null, undefined, the empty string, the number `0`,
`NaN` and `false`), while the truthy string `"0"` keeps its own group —
shown generally for the grouping label and end-to-end on one-row datasets
through both the bar and the pie pipeline. -/
theorem claim9_falsy_unknown :
    (∀ (x : String) (r : JSObj), groupLabel x r =
      if truthy (objGet r x) then jsToString (objGet r x) else "Unknown") ∧
    ((barChartData rndZero (c9Row .vNull) "k" "v").map (fun o => objGet o "k") =
      [.vStr "Unknown"]) ∧
    ((barChartData rndZero (c9Row .vUndefined) "k" "v").map (fun o => objGet o "k") =
      [.vStr "Unknown"]) ∧
    ((barChartData rndZero (c9Row (.vStr "")) "k" "v").map (fun o => objGet o "k") =
      [.vStr "Unknown"]) ∧
    ((barChartData rndZero (c9Row (.vNum (.fin 0))) "k" "v").map (fun o => objGet o "k") =
      [.vStr "Unknown"]) ∧
    ((barChartData rndZero (c9Row (.vBool false)) "k" "v").map (fun o => objGet o "k") =
      [.vStr "Unknown"]) ∧
    ((barChartData rndZero (c9Row (.vStr "0")) "k" "v").map (fun o => objGet o "k") =
      [.vStr "0"]) ∧
    (pieChartData (c9Row .vNull) "k" "v" "" "" false = [⟨"Unknown", .fin 5⟩]) ∧
    (pieChartData (c9Row (.vNum (.fin 0))) "k" "v" "" "" false =
      [⟨"Unknown", .fin 5⟩]) ∧
    (pieChartData (c9Row (.vBool false)) "k" "v" "" "" false =
      [⟨"Unknown", .fin 5⟩]) ∧
    (pieChartData (c9Row (.vStr "0")) "k" "v" "" "" false = [⟨"0", .fin 5⟩]) := by
  refine ⟨?_, by with_unfolding_all decide, by with_unfolding_all decide,
    by with_unfolding_all decide, by with_unfolding_all decide,
    by with_unfolding_all decide, by with_unfolding_all decide,
    by with_unfolding_all decide, by with_unfolding_all decide,
    by with_unfolding_all decide, by with_unfolding_all decide⟩
  intro x r
  unfold groupLabel jsOr
  by_cases h : truthy (objGet r x) = true
  · rw [if_pos h, if_pos h]
  · rw [if_neg h, if_neg h]
    rfl

/-! Claim C10: the Unknown option versus the unsubstituted sub-series
filter in the line chart's show-all mode. -/

/-- Stringification of a falsy raw value is one of six fixed strings, none
of which is `"Unknown"`. -/
theorem falsy_jsToString (v : JSVal) (h : truthy v = false) :
    jsToString v ∈ (["", "null", "undefined", "0", "false", "NaN"] : List String) := by
  cases v with
  | vNull => simp [jsToString]
  | vUndefined => simp [jsToString]
  | vStr s =>
    unfold truthy at h
    have hs : s = "" := by simpa using h
    subst hs
    simp [jsToString]
  | vBool b =>
    cases b with
    | false => simp [jsToString]
    | true => simp [truthy] at h
  | vNum n =>
    cases n with
    | nan => simp [jsToString]
    | inf p => simp [truthy] at h
    | fin q =>
      unfold truthy at h
      have hq : q = 0 := by simpa using h
      subst hq
      have hzero : ratToString 0 = "0" := by with_unfolding_all rfl
      simp [jsToString, hzero]

theorem objGet_lineMkItem_g (x y g : String) (r : JSObj) (hg : g ≠ "") :
    objGet (lineMkItem x y g r) g = objGet r g := by
  unfold lineMkItem
  rw [if_pos hg, objGet_objSet_self]

theorem mem_stateOptionsOf (data : List JSObj) (g st : String) (hg : g ≠ "") :
    st ∈ stateOptionsOf data g ↔
      st ∈ data.map (fun r => jsToString (jsOr (objGet r g) (.vStr "Unknown"))) := by
  unfold stateOptionsOf
  rw [if_neg hg, mem_jsSortBy, mem_dedupFirst]

/-- C10 (amended): in show-all mode with a grouping column selected, if
some row's grouping value is falsy then an `"Unknown"` option exists; and
provided no row's raw grouping value stringifies to one of the magic
strings (`"Unknown"` or a falsy stringification), the `"Unknown"`
sub-series is empty and every item of every sub-series has a truthy
grouping value — so the falsy-valued rows belong to no sub-series. -/
theorem claim10_amended (data : List JSObj) (x y g sel : String) (hg : g ≠ "")
    (hsome : ∃ r ∈ data, truthy (objGet r g) = false)
    (hclean : ∀ r ∈ data, truthy (objGet r g) = true →
      jsToString (objGet r g) ∉
        (["Unknown", "", "null", "undefined", "0", "false", "NaN"] : List String)) :
    "Unknown" ∈ stateOptionsOf data g ∧
    lineSubSeries data x y g sel true "Unknown" = [] ∧
    (∀ st ∈ stateOptionsOf data g, ∀ item ∈ lineSubSeries data x y g sel true st,
      truthy (objGet item g) = true) := by
  have hitem_g : ∀ item ∈ lineChartData data x y g sel true, ∃ r ∈ data,
      objGet item g = objGet r g := by
    intro item hit
    rw [lineChartData_eq_map] at hit
    obtain ⟨r, hr, rfl⟩ := List.mem_map.mp hit
    exact ⟨r, lineSeriesRows_mem_data data x g sel true r hr,
      objGet_lineMkItem_g x y g r hg⟩
  have hraw_ne : ∀ r ∈ data, jsToString (objGet r g) ≠ "Unknown" := by
    intro r hr
    cases ht : truthy (objGet r g) with
    | true =>
      intro heq
      exact hclean r hr ht (by rw [heq]; exact List.mem_cons_self _ _)
    | false =>
      intro heq
      have hmem := falsy_jsToString _ ht
      rw [heq] at hmem
      exact absurd hmem (by decide)
  refine ⟨?_, ?_, ?_⟩
  · obtain ⟨r, hr, hf⟩ := hsome
    rw [mem_stateOptionsOf data g _ hg]
    refine List.mem_map.mpr ⟨r, hr, ?_⟩
    unfold jsOr
    rw [if_neg (by simp [hf])]
    rfl
  · unfold lineSubSeries
    rw [List.filter_eq_nil_iff]
    intro item hit
    obtain ⟨r, hr, hg'⟩ := hitem_g item hit
    simp only [decide_eq_true_eq, hg']
    exact hraw_ne r hr
  · intro st hst item hitem
    unfold lineSubSeries at hitem
    obtain ⟨hit, hpred⟩ := List.mem_filter.mp hitem
    obtain ⟨r, hr, hg'⟩ := hitem_g item hit
    by_contra hft
    rw [Bool.not_eq_true, hg'] at hft
    have hst_eq : jsToString (objGet r g) = st := by
      rw [← hg']
      exact of_decide_eq_true hpred
    have hst_falsy : st ∈ (["", "null", "undefined", "0", "false", "NaN"] : List String) := by
      rw [← hst_eq]
      exact falsy_jsToString _ hft
    rw [mem_stateOptionsOf data g st hg] at hst
    obtain ⟨r2, hr2, hlab⟩ := List.mem_map.mp hst
    cases ht2 : truthy (objGet r2 g) with
    | true =>
      refine hclean r2 hr2 ht2 ?_
      have hst2 : st = jsToString (objGet r2 g) := by
        rw [← hlab]
        unfold jsOr
        rw [if_pos ht2]
      rw [← hst2]
      exact List.mem_cons_of_mem _ hst_falsy
    | false =>
      have hst2 : st = "Unknown" := by
        rw [← hlab]
        unfold jsOr
        rw [if_neg (by simp [ht2])]
        rfl
      rw [hst2] at hst_falsy
      exact absurd hst_falsy (by decide)

/-- C10 (counterexample): with a row whose grouping value is the literal
string `"Unknown"` alongside a row with an empty grouping value, the
`"Unknown"` option's sub-series is NOT empty — the claim's universal
statement fails. -/
theorem claim10_counterexample :
    (∃ r ∈ c10CexData, truthy (objGet r "g") = false) ∧
    "Unknown" ∈ stateOptionsOf c10CexData "g" ∧
    lineSubSeries c10CexData "x" "y" "g" "" true "Unknown" ≠ [] := by
  with_unfolding_all decide

/-- C10 (witness): the amended statement at a clean two-row dataset. -/
theorem claim10_witness :
    "Unknown" ∈ stateOptionsOf c10WitData "g" ∧
    lineSubSeries c10WitData "x" "y" "g" "" true "Unknown" = [] := by
  have h := claim10_amended c10WitData "x" "y" "g" "" (by decide)
    ⟨[("g", .vStr ""), ("x", .vStr "1"), ("y", .vStr "2")], by decide, by decide⟩
    (by with_unfolding_all decide)
  exact ⟨h.1, h.2.1⟩

end DataVisual
